import Mathlib

/-!
Verification of the ralph-desktop loop engine and adapter layer.

Shallow embedding of the Rust sources under src/src-tauri/src/:
string helpers and the commit-message normaliser from engine/mod.rs,
the three adapters' output-line parsing from adapters/{claude,codex,opencode}.rs,
the auto-commit step, and a fuel-indexed interpreter of LoopEngine::start
driven by a script of externally observed events (stream lines, flag writes,
timeout ticks).  External effects (the git subprocess, serde_json parsing,
the shell environment) are supplied as oracle values recorded in structures.
-/

namespace Ralph

/-! ## Rust string primitives -/

/-- Rust char::is_whitespace restricted to the characters these sources ever
trim; Lean's Char.isWhitespace covers space, tab, CR and LF. -/
def rustIsWs (c : Char) : Bool := c.isWhitespace

/-- Rust str::trim: remove leading and trailing whitespace. -/
def rustTrim (s : String) : String :=
  String.mk (((s.data.dropWhile rustIsWs).reverse.dropWhile rustIsWs).reverse)

/-- Rust str::trim_matches(c): strip every leading and trailing occurrence of c. -/
def trimMatches (c : Char) (s : String) : String :=
  String.mk (((s.data.dropWhile (· = c)).reverse.dropWhile (· = c)).reverse)

/-- Split a character list at every newline; length = newline count + 1. -/
def splitNl : List Char → List (List Char)
  | [] => [[]]
  | c :: rest =>
    let r := splitNl rest
    if c = '\n' then [] :: r
    else
      match r with
      | [] => [[c]]
      | l :: ls => (c :: l) :: ls

/-- Strip one trailing carriage return, as Rust's lines() does per line. -/
def stripCr (l : List Char) : List Char :=
  if l.getLast? = some '\r' then l.dropLast else l

/-- Rust str::lines(): split at newlines, the final line ending optional. -/
def rustLines (s : String) : List String :=
  let segs := splitNl s.data
  let segs := if segs.getLast? = some [] then segs.dropLast else segs
  segs.map (fun l => String.mk (stripCr l))

/-- Boolean list-prefix test. -/
def isPrefixChars : List Char → List Char → Bool
  | [], _ => true
  | _ :: _, [] => false
  | a :: as, b :: bs => a == b && isPrefixChars as bs

/-- Boolean contiguous-sublist test: pat occurs somewhere inside the list. -/
def isInfixChars (pat : List Char) : List Char → Bool
  | [] => isPrefixChars pat []
  | c :: rest => isPrefixChars pat (c :: rest) || isInfixChars pat rest

/-- Rust str::contains(pat): substring test. -/
def strContains (s pat : String) : Bool :=
  isInfixChars pat.data s.data

/-- Rust str::is_empty: no characters. -/
def strIsEmpty (s : String) : Bool :=
  s.data.isEmpty

/-- Decimal digit character, for n < 10. -/
def digitChar (n : Nat) : Char := Char.ofNat (48 + n)

/-- Digit accumulation for natToStr; the fuel only bounds recursion depth
and n + 1 always suffices since n / 10 shrinks at every step. -/
def natToStrAux : Nat → Nat → List Char
  | 0, _ => []
  | fuel+1, n =>
    if n < 10 then [digitChar n]
    else natToStrAux fuel (n / 10) ++ [digitChar (n % 10)]

/-- Decimal rendering of a natural number, as Rust Display for u32. -/
def natToStr (n : Nat) : String :=
  String.mk (natToStrAux (n + 1) n)

/-! ## Data model shared by adapters and engine

The following three declarations live in files absent from src/
(storage/models.rs and adapters/mod.rs); they are reconstructed from their
uses in the present sources and from the spec's data model section. -/

/-- Modelled from the spec: the closed enumeration of supported agent tools
(storage::models::CliType, absent from src/), one value per adapter. -/
inductive CliType where
  | Claude
  | Codex
  | OpenCode
deriving DecidableEq, Repr

/-- Modelled from the spec: the framing tag of a parsed output line
(adapters::LineType, absent from src/), with variants Json, Text, Error as
used by the three adapters. -/
inductive LineType where
  | Json
  | Text
  | Error
deriving DecidableEq, Repr

/-- Modelled from the spec: the adapter output record (adapters::ParsedLine,
absent from src/): content, framing, assistant-origin flag. -/
structure ParsedLine where
  content : String
  line_type : LineType
  is_assistant : Bool
deriving DecidableEq, Repr

/-- Modelled from the spec: adapters::CommandOptions (absent from src/), the
single recognised option passed at command-build time. -/
structure CommandOptions where
  skip_git_repo_check : Bool
deriving DecidableEq, Repr

/-! ## JSON values (serde_json::Value) -/

/-- serde_json::Value.  Objects are association lists; the engine sources
never rely on key order when reading, and serialisation sorts keys the way
serde_json's BTreeMap-backed map does. -/
inductive JsonVal where
  | null
  | bool (b : Bool)
  | num (n : Int)
  | str (s : String)
  | arr (items : List JsonVal)
  | obj (fields : List (String × JsonVal))

/-- serde_json::Value::get(key) on an object. -/
def JsonVal.getField : JsonVal → String → Option JsonVal
  | .obj fields, key => fields.lookup key
  | _, _ => none

/-- serde_json::Value::as_str. -/
def JsonVal.asStr : JsonVal → Option String
  | .str s => some s
  | _ => none

/-- value.get(key).and_then(|v| v.as_str()). -/
def getStr (v : JsonVal) (key : String) : Option String :=
  (v.getField key).bind JsonVal.asStr

/-- serde_json::Value::is_object. -/
def JsonVal.isObj : JsonVal → Bool
  | .obj _ => true
  | _ => false

/-! ## Claude adapter: text extraction and line parsing
(src/src-tauri/src/adapters/claude.rs) -/

/-- claude.rs join_text_array: join the non-empty text parts of an array. -/
def join_text_array (v : JsonVal) : Option String :=
  match v with
  | .arr items =>
    let parts := items.foldl (fun acc item =>
      match item.asStr with
      | some t => if strIsEmpty t then acc else acc ++ [t]
      | none =>
        match (item.getField "text").bind JsonVal.asStr with
        | some t => if strIsEmpty t then acc else acc ++ [t]
        | none =>
          match (item.getField "content").bind JsonVal.asStr with
          | some t => if strIsEmpty t then acc else acc ++ [t]
          | none => acc) []
    if parts.isEmpty then none else some (String.intercalate "" parts)
  | _ => none

/-- claude.rs extract_text, content probe: content as string or text array. -/
def contentProbe (v : JsonVal) : Option String :=
  match v.getField "content" with
  | none => none
  | some content =>
    match content.asStr with
    | some t => some t
    | none => join_text_array content

/-- claude.rs extract_text, delta probe: delta.text or delta's content array. -/
def deltaProbe (v : JsonVal) : Option String :=
  match v.getField "delta" with
  | none => none
  | some delta =>
    match getStr delta "text" with
    | some t => some t
    | none => join_text_array ((delta.getField "content").getD delta)

/-- claude.rs extract_text, message probe: message.text or message.content. -/
def messageProbe (v : JsonVal) : Option String :=
  match v.getField "message" with
  | none => none
  | some msg =>
    match getStr msg "text" with
    | some t => some t
    | none =>
      match msg.getField "content" with
      | some c => join_text_array c
      | none => none

/-- claude.rs extract_text: probe text, content, delta, message in order. -/
def extract_text (v : JsonVal) : Option String :=
  match getStr v "text" with
  | some t => some t
  | none =>
    match contentProbe v with
    | some t => some t
    | none =>
      match deltaProbe v with
      | some t => some t
      | none => messageProbe v

/-- ClaudeCodeAdapter::parse_output_line.  serde_json parsing of the raw line
is supplied as the oracle argument: some v when the line parses to v,
none when it is not valid JSON. -/
def claude_parse_output_line (line : String) (json : Option JsonVal) : ParsedLine :=
  match json with
  | some value =>
    let content := (extract_text value).getD ""
    let role := getStr value "role"
    let is_assistant : Bool := role == some "assistant"
    let is_assistant :=
      if role.isNone then
        let event_type := (getStr value "type").getD ""
        if strContains event_type "message" || strContains event_type "content"
            || strContains event_type "assistant" then
          true
        else is_assistant
      else is_assistant
    let content :=
      if strIsEmpty (rustTrim content) then
        let event_type := (getStr value "type").getD ""
        if event_type ≠ "ping" ∧ event_type ≠ "progress" then line else content
      else content
    ⟨content, LineType.Json, is_assistant⟩
  | none => ⟨line, LineType.Text, false⟩

/-- ClaudeCodeAdapter::detect_completion over pre-split lines with their parse
oracles: any assistant-marked line containing the signal. -/
def claude_detect_completion (outputLines : List (String × Option JsonVal)) (signal : String) : Bool :=
  outputLines.any (fun lj =>
    let parsed := claude_parse_output_line lj.1 lj.2
    parsed.is_assistant && strContains parsed.content signal)

/-! ## Codex adapter (src/src-tauri/src/adapters/codex.rs) -/

/-- CodexAdapter::parse_output_line: plain text, always assistant. -/
def codex_parse_output_line (line : String) : ParsedLine :=
  ⟨line, LineType.Text, true⟩

/-- CodexAdapter::detect_completion: the signal anywhere in the output. -/
def codex_detect_completion (output signal : String) : Bool :=
  strContains output signal

/-- CodexAdapter::exec_args. -/
def codex_exec_args (prompt : String) (options : CommandOptions) : List String :=
  let args := ["exec", "--dangerously-bypass-approvals-and-sandbox"]
  let args := if options.skip_git_repo_check then args ++ ["--skip-git-repo-check"] else args
  args ++ [prompt]

/-! ## OpenCode adapter (src/src-tauri/src/adapters/opencode.rs) -/

/-- OpenCodeAdapter::extract_text: /part/text, text, /error/message, message,
/data/message in order. -/
def opencode_extract_text (v : JsonVal) : Option String :=
  match (v.getField "part").bind (fun p => getStr p "text") with
  | some t => some t
  | none =>
    match getStr v "text" with
    | some t => some t
    | none =>
      match (v.getField "error").bind (fun e => getStr e "message") with
      | some t => some t
      | none =>
        match getStr v "message" with
        | some t => some t
        | none => (v.getField "data").bind (fun d => getStr d "message")

/-- OpenCodeAdapter::parse_output_line, with the serde parse result as oracle. -/
def opencode_parse_output_line (line : String) (json : Option JsonVal) : ParsedLine :=
  match json with
  | some value =>
    let event_type := (getStr value "type").getD ""
    if event_type = "text" then
      ⟨(opencode_extract_text value).getD "", LineType.Json, true⟩
    else if event_type = "error" then
      ⟨(opencode_extract_text value).getD line, LineType.Error, false⟩
    else
      ⟨(opencode_extract_text value).getD line, LineType.Json, false⟩
  | none => ⟨line, LineType.Text, true⟩

/-- Engine-side dispatch of adapter.parse_output_line by agent kind.  The
json oracle is the serde parse of the line; the Codex adapter ignores it. -/
def parse_output_line (cli : CliType) (line : String) (json : Option JsonVal) : ParsedLine :=
  match cli with
  | .Claude => claude_parse_output_line line json
  | .Codex => codex_parse_output_line line
  | .OpenCode => opencode_parse_output_line line json

/-! ## Engine string helpers (src/src-tauri/src/engine/mod.rs) -/

/-- The engine-level reason string for the Codex trusted-directory refusal. -/
def CODEX_GIT_REPO_CHECK_REQUIRED : String := "codex_git_repo_check_required"

/-- LoopEngine::is_codex_git_repo_check_error: Codex kind and both fingerprint
substrings present in the stderr line. -/
def is_codex_git_repo_check_error (cli : CliType) (line : String) : Bool :=
  cli == CliType.Codex
    && strContains line "Not inside a trusted directory"
    && strContains line "skip-git-repo-check"

/-- LoopEngine::normalize_commit_message: first non-empty trimmed line,
stripped of surrounding backticks, double quotes and single quotes, falling
back to "ralph: iteration N" when empty, truncated to 72 characters. -/
def normalize_commit_message (raw : String) (iteration : Nat) : String :=
  let line := (((rustLines raw).map rustTrim).find? (fun l => !(strIsEmpty l))).getD ""
  let line := trimMatches '\'' (trimMatches '"' (trimMatches '`' line))
  let line := if strIsEmpty line then "ralph: iteration " ++ natToStr iteration else line
  if line.data.length > 72 then String.mk (line.data.take 72) else line

/-- LoopEngine::truncate_for_prompt: cap at max_chars characters, marking
truncation. -/
def truncate_for_prompt (input : String) (max_chars : Nat) : String :=
  if input.data.length ≤ max_chars then input
  else String.mk (input.data.take max_chars) ++ "\n... (truncated) ..."

/-! ## Git interaction and the auto-commit step

Each git subprocess invocation is an external effect; its outcome is an
oracle value.  run_git and is_git_repo translate an outcome into the same
Result the Rust functions produce. -/

/-- Decidable equality for Result values. -/
instance {α β : Type} [DecidableEq α] [DecidableEq β] : DecidableEq (Except α β) := fun a b =>
  match a, b with
  | .ok x, .ok y =>
    if h : x = y then .isTrue (by rw [h]) else .isFalse (by intro hh; cases hh; exact h rfl)
  | .error x, .error y =>
    if h : x = y then .isTrue (by rw [h]) else .isFalse (by intro hh; cases hh; exact h rfl)
  | .ok _, .error _ => .isFalse (by intro hh; cases hh)
  | .error _, .ok _ => .isFalse (by intro hh; cases hh)

/-- Outcome of spawning one git subprocess: spawn failure, or exit with a
success flag and captured stdout/stderr. -/
inductive GitRes where
  | spawnErr (e : String)
  | exited (success : Bool) (stdout stderr : String)
deriving DecidableEq, Repr

/-- LoopEngine::run_git applied to one oracle outcome. -/
def run_git (args : List String) (r : GitRes) : Except String String :=
  match r with
  | .spawnErr e => .error ("Failed to run git: " ++ e)
  | .exited success out err =>
    if success then .ok out
    else .error ("git " ++ String.intercalate " " args ++ " failed: " ++ rustTrim err)

/-- LoopEngine::is_git_repo applied to the rev-parse oracle outcome: command
failure maps to Ok(false), success compares trimmed stdout with "true". -/
def is_git_repo (r : GitRes) : Except String Bool :=
  match r with
  | .spawnErr e => .error ("Failed to run git: " ++ e)
  | .exited success out _ =>
    if success then .ok (rustTrim out == "true") else .ok false

/-- Oracle bundle for one invocation of the auto-commit step: the outcome of
each git subprocess it may spawn, plus the result of generate_commit_message
(the read-only agent invocation; its Ok value is the trimmed stdout, exactly
what the Rust function returns). -/
structure GitOracle where
  revParse : GitRes
  status : GitRes
  diffStat : GitRes
  diff : GitRes
  add : GitRes
  commit : GitRes
  msgGen : Except String String
deriving Repr

/-- The message the auto-commit step hands to git: the generate_commit_message
result, or the literal fallback on failure, then normalised. -/
def commitMessageFor (g : GitOracle) (iteration : Nat) : String :=
  let message :=
    match g.msgGen with
    | .ok msg => msg
    | .error _ => "ralph: iteration " ++ natToStr iteration
  normalize_commit_message message iteration

/-- LoopEngine::commit_iteration_if_needed.  Returns the step's Result
together with the trace of git invocations actually executed (argument
vectors, in order).  diff --stat and diff results are unwrap_or_default'ed
into the message prompt and cannot fail the step. -/
def commit_iteration_if_needed (auto_commit : Bool) (g : GitOracle) (iteration : Nat) :
    Except String Unit × List (List String) :=
  if !auto_commit then (.ok (), [])
  else
    match is_git_repo g.revParse with
    | .error e => (.error e, [["rev-parse", "--is-inside-work-tree"]])
    | .ok isRepo =>
      if !isRepo then (.ok (), [["rev-parse", "--is-inside-work-tree"]])
      else
        let trace := [["rev-parse", "--is-inside-work-tree"], ["status", "--porcelain"]]
        match run_git ["status", "--porcelain"] g.status with
        | .error e => (.error e, trace)
        | .ok status =>
          if strIsEmpty (rustTrim status) then (.ok (), trace)
          else
            let trace := trace ++ [["diff", "--stat"], ["diff"]]
            let message := commitMessageFor g iteration
            let trace := trace ++ [["add", "-A"]]
            match run_git ["add", "-A"] g.add with
            | .error e => (.error e, trace)
            | .ok _ =>
              let trace := trace ++ [["commit", "-m", message]]
              match run_git ["commit", "-m", message] g.commit with
              | .error e => (.error e, trace)
              | .ok _ => (.ok (), trace)

/-- The mutating git invocations in a trace: add and commit commands. -/
def gitMutations (trace : List (List String)) : List (List String) :=
  trace.filter (fun args => args.head? == some "add" || args.head? == some "commit")

/-! ## LoopEngine::start as a fuel-indexed interpreter

The driver task is deterministic once the externally observable
nondeterminism is fixed: the order in which signal-flag writes land, which
select branch resolves at each step of the streaming loop and of the paused
wait, each line the child produces, and the serde parse of each stdout line.
A run script is that sequence of resolutions.  Timeout comparisons against
wall-clock instants are oracle booleans carried by the tick events.  Fuel
bounds the recursion; an exhausted script or fuel yields final = none
(the real driver would still be blocked). -/

/-- The three shared signal primitives of the engine: two atomic booleans
plus the stored permit of the tokio Notify used for resume. -/
structure Flags where
  stop_requested : Bool
  pause_requested : Bool
  resume_permit : Bool
deriving DecidableEq, Repr

/-- LoopEvent from engine/mod.rs, payloads unchanged. -/
inductive LoopEvent where
  | IterationStart (project_id : String) (iteration : Nat)
  | Output (project_id : String) (iteration : Nat) (content : String) (is_stderr : Bool)
  | Pausing (project_id : String) (iteration : Nat)
  | Paused (project_id : String) (iteration : Nat)
  | Resumed (project_id : String) (iteration : Nat)
  | Completed (project_id : String) (iteration : Nat)
  | MaxIterationsReached (project_id : String) (iteration : Nat)
  | Error (project_id : String) (iteration : Nat) (error : String)
  | Stopped (project_id : String)
deriving DecidableEq, Repr

/-- LoopState from engine/mod.rs. -/
inductive LoopState where
  | Idle
  | Running (iteration : Nat)
  | Pausing (iteration : Nat)
  | Paused (iteration : Nat)
  | Completed (iteration : Nat)
  | MaxIterationsReached (iteration : Nat)
  | Failed (iteration : Nat)
deriving DecidableEq, Repr

/-- One resolution step of the run's external nondeterminism.  extStop,
extPause and extResume are the control surface's stop()/pause()/resume()
landing; outLine carries a stdout line with its serde parse oracle; errLine
a stderr line; outEof/errEof a stream closing (Ok(None) or Err(_));
tick the 1 s sleep branch with the two timeout comparisons already
evaluated; pauseTick and resumeWake the two select branches of the paused
wait. -/
inductive ScriptEv where
  | extStop
  | extPause
  | extResume
  | spawnOk
  | spawnFail (e : String)
  | outLine (line : String) (json : Option JsonVal)
  | outEof
  | errLine (line : String)
  | errEof
  | tick (iterTimeout idleTimeout : Bool)
  | pauseTick
  | resumeWake

/-- The engine configuration fields LoopEngine::start reads.  Prompt, paths
and the timeout durations feed only the spawned command and the tick
comparisons, which the script already resolves; git supplies the
auto-commit oracle for each iteration. -/
structure EngCfg where
  project_id : String
  cli_type : CliType
  max_iterations : Nat
  auto_commit : Bool
  completion_signal : String
  git : Nat → GitOracle

/-- Side effects of the driver beyond events: child spawned / killed /
reaped, and the auto-commit step being invoked, each tagged with its
iteration. -/
inductive Act where
  | spawned (iteration : Nat)
  | killed (iteration : Nat)
  | waited (iteration : Nat)
  | commitCalled (iteration : Nat)
deriving DecidableEq, Repr

/-- Result of a run: events in emission order, side-effect trace, and the
returned LoopState (none when fuel or script ran out mid-run). -/
structure RunOut where
  events : List LoopEvent
  acts : List Act
  final : Option LoopState
deriving DecidableEq, Repr

/-- How the streaming loop ended. -/
inductive StreamOutcome where
  | finished (completed : Bool)
  | stoppedIdle
  | failedRepoCheck
  | exhausted
deriving DecidableEq, Repr

/-- Streaming-loop result: events, side effects, flag state afterwards,
unconsumed script, outcome. -/
structure StreamRes where
  events : List LoopEvent
  acts : List Act
  flags : Flags
  rest : List ScriptEv
  outcome : StreamOutcome

/-- How the paused wait ended. -/
inductive WaitOutcome where
  | resumed
  | stoppedIdle
  | exhausted
deriving DecidableEq, Repr

/-- Paused-wait result. -/
structure WaitRes where
  events : List LoopEvent
  flags : Flags
  rest : List ScriptEv
  outcome : WaitOutcome

/-- Apply the signal writes that landed before the next atomic read: the
stop()/pause()/resume() operations only ever set their primitive. -/
def drainExt : Flags → List ScriptEv → Flags × List ScriptEv
  | f, .extStop :: rest => drainExt { f with stop_requested := true } rest
  | f, .extPause :: rest => drainExt { f with pause_requested := true } rest
  | f, .extResume :: rest => drainExt { f with resume_permit := true } rest
  | f, evs => (f, evs)

/-- The paused wait of LoopEngine::start: select between resume_notify
(needs a stored permit, which it consumes) and a 100 ms sleep that
re-checks stop_requested, emitting Stopped and settling Idle when set. -/
def pausedWait (cfg : EngCfg) : Nat → Flags → List ScriptEv → WaitRes
  | 0, f, evs => ⟨[], f, evs, .exhausted⟩
  | fuel+1, f, evs =>
    match evs with
    | [] => ⟨[], f, [], .exhausted⟩
    | .extStop :: rest => pausedWait cfg fuel { f with stop_requested := true } rest
    | .extPause :: rest => pausedWait cfg fuel { f with pause_requested := true } rest
    | .extResume :: rest => pausedWait cfg fuel { f with resume_permit := true } rest
    | .resumeWake :: rest =>
      if f.resume_permit then ⟨[], { f with resume_permit := false }, rest, .resumed⟩
      else pausedWait cfg fuel f rest
    | .pauseTick :: rest =>
      if f.stop_requested then ⟨[.Stopped cfg.project_id], f, rest, .stoppedIdle⟩
      else pausedWait cfg fuel f rest
    | _ :: rest => pausedWait cfg fuel f rest

/-- The streaming while-loop of LoopEngine::start for one live child at the
given iteration: loop while a stream is open; re-read stop_requested at the
top (kill, Stopped, return Idle when set); then resolve one select branch.
A stdout line is parsed and emitted, and completion is checked against the
parsed record; a stderr line is checked against the Codex trusted-directory
fingerprint (kill and return Failed) and otherwise emitted with is_stderr
true exactly for non-Codex kinds; ticks apply the two timeout checks,
iteration deadline first. -/
def streamLoop (cfg : EngCfg) (iteration : Nat) :
    Nat → Flags → Bool → Bool → List ScriptEv → StreamRes
  | 0, f, _, _, evs => ⟨[], [], f, evs, .exhausted⟩
  | fuel+1, f, stdout_done, stderr_done, evs =>
    if stdout_done && stderr_done then ⟨[], [], f, evs, .finished false⟩
    else if f.stop_requested then
      ⟨[.Stopped cfg.project_id], [.killed iteration], f, evs, .stoppedIdle⟩
    else
      match evs with
      | [] => ⟨[], [], f, [], .exhausted⟩
      | .extStop :: rest =>
        streamLoop cfg iteration fuel { f with stop_requested := true } stdout_done stderr_done rest
      | .extPause :: rest =>
        streamLoop cfg iteration fuel { f with pause_requested := true } stdout_done stderr_done rest
      | .extResume :: rest =>
        streamLoop cfg iteration fuel { f with resume_permit := true } stdout_done stderr_done rest
      | .outLine line json :: rest =>
        if stdout_done then streamLoop cfg iteration fuel f stdout_done stderr_done rest
        else
          let parsed := parse_output_line cfg.cli_type line json
          let outEv := LoopEvent.Output cfg.project_id iteration parsed.content false
          if parsed.is_assistant && strContains parsed.content cfg.completion_signal then
            ⟨[outEv], [.killed iteration], f, rest, .finished true⟩
          else
            let r := streamLoop cfg iteration fuel f stdout_done stderr_done rest
            ⟨outEv :: r.events, r.acts, r.flags, r.rest, r.outcome⟩
      | .outEof :: rest => streamLoop cfg iteration fuel f true stderr_done rest
      | .errLine line :: rest =>
        if stderr_done then streamLoop cfg iteration fuel f stdout_done stderr_done rest
        else if is_codex_git_repo_check_error cfg.cli_type line then
          ⟨[.Error cfg.project_id iteration CODEX_GIT_REPO_CHECK_REQUIRED],
           [.killed iteration], f, rest, .failedRepoCheck⟩
        else
          let outEv := LoopEvent.Output cfg.project_id iteration line (cfg.cli_type != CliType.Codex)
          let r := streamLoop cfg iteration fuel f stdout_done stderr_done rest
          ⟨outEv :: r.events, r.acts, r.flags, r.rest, r.outcome⟩
      | .errEof :: rest => streamLoop cfg iteration fuel f stdout_done true rest
      | .tick iterTimeout idleTimeout :: rest =>
        if iterTimeout then
          ⟨[.Error cfg.project_id iteration "Iteration timeout: exceeded the configured budget"],
           [.killed iteration], f, rest, .finished false⟩
        else if idleTimeout then
          ⟨[.Error cfg.project_id iteration "Idle timeout: no output within the configured budget"],
           [.killed iteration], f, rest, .finished false⟩
        else streamLoop cfg iteration fuel f stdout_done stderr_done rest
      | _ :: rest => streamLoop cfg iteration fuel f stdout_done stderr_done rest

/-- Phase selector for the while-loop interpreter: gate is the top of the
while loop (bound check, stop and pause gates), body is one iteration body.
A single structurally fuel-recursive function keeps the interpreter
kernel-reducible. -/
inductive Phase where
  | gate
  | body
deriving DecidableEq, Repr

/-- The while-loop of LoopEngine::start.  In phase gate, entered with the
current iteration counter: exit with MaxIterationsReached at the bound,
otherwise the pre-spawn gate (stop first, then pause with its wait) and the
iteration body.  In phase body, one iteration: increment the counter, emit
IterationStart, spawn (an Error and continue on failure), stream the child,
reap it, run the auto-commit step (its failure becomes a stderr-channel
Output), emit Completed and return on completion, otherwise pass the
post-iteration pause gate and go back to the top of the while loop. -/
def runPhase (cfg : EngCfg) : Nat → Phase → Nat → Flags → List ScriptEv → RunOut
  | 0, _, _, _, _ => ⟨[], [], none⟩
  | fuel+1, .gate, iteration, f0, evs0 =>
    if iteration < cfg.max_iterations then
      let fe := drainExt f0 evs0
      let f := fe.1
      let evs := fe.2
      if f.stop_requested then
        ⟨[.Stopped cfg.project_id], [], some .Idle⟩
      else if f.pause_requested then
        let w := pausedWait cfg fuel f evs
        match w.outcome with
        | .exhausted => ⟨.Paused cfg.project_id iteration :: w.events, [], none⟩
        | .stoppedIdle => ⟨.Paused cfg.project_id iteration :: w.events, [], some .Idle⟩
        | .resumed =>
          let f2 := { w.flags with pause_requested := false }
          let r := runPhase cfg fuel .body iteration f2 w.rest
          ⟨.Paused cfg.project_id iteration ::
             (w.events ++ (.Resumed cfg.project_id iteration :: r.events)),
           r.acts, r.final⟩
      else runPhase cfg fuel .body iteration f evs
    else
      ⟨[.MaxIterationsReached cfg.project_id iteration], [],
       some (.MaxIterationsReached iteration)⟩
  | fuel+1, .body, iteration, f0, evs0 =>
    let iter := iteration + 1
    let startEv := LoopEvent.IterationStart cfg.project_id iter
    let fe := drainExt f0 evs0
    let f := fe.1
    match fe.2 with
    | .spawnFail e :: rest =>
      let r := runPhase cfg fuel .gate iter f rest
      ⟨startEv :: .Error cfg.project_id iter ("Failed to spawn CLI: " ++ e) :: r.events,
       r.acts, r.final⟩
    | .spawnOk :: rest =>
      let s := streamLoop cfg iter fuel f false false rest
      match s.outcome with
      | .exhausted => ⟨startEv :: s.events, .spawned iter :: s.acts, none⟩
      | .stoppedIdle => ⟨startEv :: s.events, .spawned iter :: s.acts, some .Idle⟩
      | .failedRepoCheck => ⟨startEv :: s.events, .spawned iter :: s.acts, some (.Failed iter)⟩
      | .finished completed =>
        let cres := commit_iteration_if_needed cfg.auto_commit (cfg.git iter) iter
        let commitEvs :=
          match cres.1 with
          | .ok _ => []
          | .error err => [LoopEvent.Output cfg.project_id iter ("[auto-commit] " ++ err) true]
        let acts := Act.spawned iter :: s.acts ++ [.waited iter, .commitCalled iter]
        if completed then
          ⟨startEv :: (s.events ++ commitEvs ++ [.Completed cfg.project_id iter]),
           acts, some (.Completed iter)⟩
        else
          let fe2 := drainExt s.flags s.rest
          let f2 := fe2.1
          if f2.pause_requested then
            let w := pausedWait cfg fuel f2 fe2.2
            match w.outcome with
            | .exhausted =>
              ⟨startEv :: (s.events ++ commitEvs ++ (.Paused cfg.project_id iter :: w.events)),
               acts, none⟩
            | .stoppedIdle =>
              ⟨startEv :: (s.events ++ commitEvs ++ (.Paused cfg.project_id iter :: w.events)),
               acts, some .Idle⟩
            | .resumed =>
              let f3 := { w.flags with pause_requested := false }
              let r := runPhase cfg fuel .gate iter f3 w.rest
              ⟨startEv :: (s.events ++ commitEvs ++
                 (.Paused cfg.project_id iter ::
                   (w.events ++ (.Resumed cfg.project_id iter :: r.events)))),
               acts ++ r.acts, r.final⟩
          else
            let r := runPhase cfg fuel .gate iter f2 fe2.2
            ⟨startEv :: (s.events ++ commitEvs ++ r.events), acts ++ r.acts, r.final⟩
    | _ => ⟨[startEv], [], none⟩

/-- The while loop entered at its top gate. -/
def loopRun (cfg : EngCfg) (fuel iteration : Nat) (f : Flags) (evs : List ScriptEv) : RunOut :=
  runPhase cfg fuel .gate iteration f evs

/-- One iteration body of the while loop. -/
def iterBody (cfg : EngCfg) (fuel iteration : Nat) (f : Flags) (evs : List ScriptEv) : RunOut :=
  runPhase cfg fuel .body iteration f evs

/-- The flag reset LoopEngine::start performs at entry before its first
gate: both atomic booleans are stored false; the Notify permit is a tokio
internal the engine does not clear. -/
def startFlagsReset (f : Flags) : Flags :=
  { f with stop_requested := false, pause_requested := false }

/-- LoopEngine::start: reset the flags, then run the while loop from
iteration 0. -/
def engineStart (cfg : EngCfg) (initial : Flags) (script : List ScriptEv) (fuel : Nat) : RunOut :=
  loopRun cfg fuel 0 (startFlagsReset initial) script

/-- LoopEngine::stop: store true into stop_requested. -/
def stopOp (f : Flags) : Flags := { f with stop_requested := true }

/-- LoopEngine::pause: store true into pause_requested. -/
def pauseOp (f : Flags) : Flags := { f with pause_requested := true }

/-- LoopEngine::resume: notify_one on resume_notify (stores a permit). -/
def resumeOp (f : Flags) : Flags := { f with resume_permit := true }

/-! ## OpenCode configuration injection
(src/src-tauri/src/adapters/opencode.rs)

serde_json's Value objects are BTreeMap-backed, so keys are kept sorted;
objInsert below models map insertion accordingly and the serialiser prints
fields in stored order, which matches Value::to_string. -/

/-- Escape one character for a JSON string literal (the subset serde needs
for the values these sources produce). -/
def escChar (c : Char) : String :=
  if c = '"' then "\\\""
  else if c = '\\' then "\\\\"
  else if c = '\n' then "\\n"
  else if c = '\t' then "\\t"
  else if c = '\r' then "\\r"
  else String.mk [c]

/-- A JSON string literal. -/
def jstr (s : String) : String :=
  "\"" ++ String.join (s.data.map escChar) ++ "\""

/-- Strict lexicographic order on character lists (BTreeMap's byte order on
the ASCII keys these sources use). -/
def strLtChars : List Char → List Char → Bool
  | [], [] => false
  | [], _ :: _ => true
  | _ :: _, [] => false
  | a :: as, b :: bs =>
    decide (a.toNat < b.toNat) || (a == b && strLtChars as bs)

/-- Strict order on strings by their characters. -/
def strLt (a b : String) : Bool := strLtChars a.data b.data

/-- BTreeMap::insert on an object's sorted field list: replace an existing
key, otherwise insert at the key's ordered position. -/
def objInsert : List (String × JsonVal) → String → JsonVal → List (String × JsonVal)
  | [], key, v => [(key, v)]
  | (k, w) :: rest, key, v =>
    if key == k then (key, v) :: rest
    else if strLt key k then (key, v) :: (k, w) :: rest
    else (k, w) :: objInsert rest key v

/-- serde_json::Value::to_string, fuel-indexed for structural recursion
through the nested lists; the fuel only bounds nesting depth. -/
def JsonVal.toStrF : Nat → JsonVal → String
  | 0, _ => ""
  | fuel+1, v =>
    match v with
    | .null => "null"
    | .bool b => if b then "true" else "false"
    | .num n => toString n
    | .str s => jstr s
    | .arr items =>
      "[" ++ String.intercalate "," (items.map (JsonVal.toStrF fuel)) ++ "]"
    | .obj fields =>
      "\x7b" ++ String.intercalate ","
        (fields.map (fun kv => jstr kv.1 ++ ":" ++ JsonVal.toStrF fuel kv.2)) ++ "\x7d"

mutual

/-- Number of constructors in a JSON value; dominates nesting depth. -/
def jsize : JsonVal → Nat
  | .null => 1
  | .bool _ => 1
  | .num _ => 1
  | .str _ => 1
  | .arr items => 1 + jsizeL items
  | .obj fields => 1 + jsizeF fields

/-- Total size of a list of JSON values. -/
def jsizeL : List JsonVal → Nat
  | [] => 0
  | v :: rest => jsize v + jsizeL rest

/-- Total size of an object's field list. -/
def jsizeF : List (String × JsonVal) → Nat
  | [] => 0
  | kv :: rest => jsize kv.2 + jsizeF rest

end

/-- serde_json::Value::to_string: compact serialisation; jsize dominates
the nesting depth, so the fuel never runs out. -/
def JsonVal.toStr (v : JsonVal) : String :=
  JsonVal.toStrF (jsize v) v

/-- Index-assignment into an object value (Value::Index insertion; the
sources only ever index objects here). -/
def JsonVal.setField : JsonVal → String → JsonVal → JsonVal
  | .obj fields, key, v => .obj (objInsert fields key v)
  | j, _, _ => j

/-- opencode.rs full_access_permissions (keys in map order). -/
def full_access_permissions : JsonVal :=
  .obj [("bash", .str "allow"), ("doom_loop", .str "allow"), ("edit", .str "allow"),
        ("external_directory", .str "allow"), ("webfetch", .str "allow")]

/-- opencode.rs apply_permissions: ensure the section is an object, then for
each key insert or overwrite its "permission" entry. -/
def apply_permissions (config : JsonVal) (sectionName : String) (keys : List String)
    (permission : JsonVal) : JsonVal :=
  let config :=
    if !(((config.getField sectionName).map JsonVal.isObj).getD false) then
      config.setField sectionName (.obj [])
    else config
  match config.getField sectionName with
  | some (.obj fields) =>
    let fields := keys.foldl (fun fs key =>
      let entry := (fs.lookup key).getD (.obj [])
      let entry :=
        match entry with
        | .obj efs => JsonVal.obj (objInsert efs "permission" permission)
        | _ => JsonVal.obj [("permission", permission)]
      objInsert fs key entry) fields
    config.setField sectionName (.obj fields)
  | _ => config

/-- opencode.rs merge_permissions: coerce to an object, then grant the
full-access permission to the agent and mode sections. -/
def merge_permissions (config : JsonVal) : JsonVal :=
  let config :=
    match config with
    | .obj _ => config
    | _ => .obj []
  let permission := full_access_permissions
  let config := apply_permissions config "agent" ["general", "build", "plan", "explore"] permission
  apply_permissions config "mode" ["build", "plan"] permission

/-- An object holding only the full-access permission entry. -/
def permissionEntry : JsonVal :=
  .obj [("permission", full_access_permissions)]

/-- opencode.rs full_access_template (keys in map order). -/
def full_access_template : JsonVal :=
  .obj [("agent", .obj [("build", permissionEntry), ("explore", permissionEntry),
                        ("general", permissionEntry), ("plan", permissionEntry)]),
        ("mode", .obj [("build", permissionEntry), ("plan", permissionEntry)])]

/-- Oracle for the environment probes apply_full_access performs:
the ambient process value and the harvested login-shell value of
OPENCODE_CONFIG_CONTENT, the serde parse of whichever of the two
env_or_shell yields (none when absent or invalid JSON), and the first
parseable on-disk config file among the candidate paths. -/
structure EnvOracle where
  envValue : Option String
  shellValue : Option String
  parsedContent : Option JsonVal
  configFile : Option JsonVal

/-- OpenCodeAdapter::apply_full_access: the value stored into the child's
OPENCODE_CONFIG_CONTENT by cmd.env, or none when the adapter leaves the
variable untouched (the child then inherits the ambient value). -/
def apply_full_access (o : EnvOracle) : Option String :=
  match o.parsedContent with
  | some config => some (merge_permissions config).toStr
  | none =>
    if o.envValue.isSome || o.shellValue.isSome then none
    else
      match o.configFile with
      | some config => some (merge_permissions config).toStr
      | none => some full_access_template.toStr

/-! ## Derived predicates used by the verification -/

/-- The spec's assistant-marking rule for the Claude adapter, stated
independently of the implementation: the record carries role "assistant",
or carries no role and its event type contains "message", "content" or
"assistant". -/
def claudeAssistantSpec (v : JsonVal) : Bool :=
  getStr v "role" == some "assistant"
    || ((getStr v "role").isNone
        && (strContains ((getStr v "type").getD "") "message"
            || strContains ((getStr v "type").getD "") "content"
            || strContains ((getStr v "type").getD "") "assistant"))

/-- The event carries no iteration number, or one at most m. -/
def evIterLe (m : Nat) : LoopEvent → Bool
  | .IterationStart _ i => decide (i ≤ m)
  | .Output _ i _ _ => decide (i ≤ m)
  | .Pausing _ i => decide (i ≤ m)
  | .Paused _ i => decide (i ≤ m)
  | .Resumed _ i => decide (i ≤ m)
  | .Completed _ i => decide (i ≤ m)
  | .MaxIterationsReached _ i => decide (i ≤ m)
  | .Error _ i _ => decide (i ≤ m)
  | .Stopped _ => true

/-- Every event in the list satisfies evIterLe m. -/
def eventsIterLe (m : Nat) (evs : List LoopEvent) : Bool :=
  evs.all (evIterLe m)

/-- A script event that satisfies the engine's stdout completion check:
a stdout line whose parsed record is assistant-originated and contains the
configured sentinel. -/
def sentinelHit (cfg : EngCfg) : ScriptEv → Bool
  | .outLine line json =>
    (parse_output_line cfg.cli_type line json).is_assistant
      && strContains (parse_output_line cfg.cli_type line json).content cfg.completion_signal
  | _ => false

/-- No stdout line in the script satisfies the completion check. -/
def noSentinelOut (cfg : EngCfg) (evs : List ScriptEv) : Bool :=
  evs.all (fun e => !sentinelHit cfg e)

/-- The returned loop state is not Completed. -/
def finalNotCompleted : Option LoopState → Bool
  | some (.Completed _) => false
  | _ => true

/-! ## Concrete instances used by counterexamples and witnesses -/

/-- A git oracle in which every subprocess succeeds with empty output; the
empty porcelain status makes the auto-commit step a no-op. -/
def gitAllOk : GitOracle :=
  ⟨.exited true "" "", .exited true "" "", .exited true "" "", .exited true "" "",
   .exited true "" "", .exited true "" "", .ok "msg"⟩

/-- A git oracle for a directory that is not a work tree: rev-parse exits
unsuccessfully. -/
def gitNoRepo : GitOracle :=
  ⟨.exited false "" "fatal: not a git repository", .exited true "" "", .exited true "" "",
   .exited true "" "", .exited true "" "", .exited true "" "", .ok "msg"⟩

/-- A git oracle for a repository with a clean tree: empty porcelain status. -/
def gitClean : GitOracle :=
  ⟨.exited true "true\n" "", .exited true "" "", .exited true "" "",
   .exited true "" "", .exited true "" "", .exited true "" "", .ok "msg"⟩

/-- A git oracle for a repository with a dirty tree and all git commands
succeeding. -/
def gitDirty : GitOracle :=
  ⟨.exited true "true\n" "", .exited true " M src/main.rs\n" "", .exited true "stat" "",
   .exited true "diff" "", .exited true "" "", .exited true "" "", .ok "Fix parser bug"⟩

/-- A Codex engine configuration: bound 3, the repository's default
sentinel, auto-commit off. -/
def cfgCodexEx : EngCfg :=
  ⟨"p", .Codex, 3, false, "<done>COMPLETE</done>", fun _ => gitAllOk⟩

/-- The same Codex configuration with an empty completion sentinel. -/
def cfgCodexEmptySig : EngCfg :=
  ⟨"p", .Codex, 3, false, "", fun _ => gitAllOk⟩

/-- The spec's scenario-1 child behaviour: the sentinel appears only on
stderr and never on stdout; each of the three iterations then closes both
streams. -/
def stderrOnlyScript : List ScriptEv :=
  [.spawnOk, .errLine "working...", .errLine "<done>COMPLETE</done>", .errEof, .outEof,
   .spawnOk, .errEof, .outEof,
   .spawnOk, .errEof, .outEof]

/-- A script whose single iteration prints the sentinel on stdout. -/
def stdoutDoneScript : List ScriptEv :=
  [.spawnOk, .outLine "<done>COMPLETE</done>" none]

/-! ## General lemmas -/

/-- Rust contains with an empty pattern is always true. -/
theorem strContains_empty (s : String) : strContains s "" = true := by
  show isInfixChars [] s.data = true
  cases s.data <;> simp [isInfixChars, isPrefixChars]

/-! ## C7 — Claude adapter line parsing -/

/-- C7: the Claude adapter marks a parsed line assistant-originated exactly
per the spec rule (role "assistant", or no role and an event type containing
"message", "content" or "assistant"); when the line parses as JSON but the
extracted text is only whitespace and the type is neither "ping" nor
"progress", the content is the raw line, and otherwise the extracted text;
lines that do not parse as JSON come back verbatim as plain text, never
assistant-originated. -/
theorem c7_claude_parse_matches_spec (line : String) (v : JsonVal) :
    claude_parse_output_line line none = ⟨line, LineType.Text, false⟩
    ∧ (claude_parse_output_line line (some v)).is_assistant = claudeAssistantSpec v
    ∧ (claude_parse_output_line line (some v)).content =
        (if strIsEmpty (rustTrim ((extract_text v).getD ""))
              && !((getStr v "type").getD "" == "ping")
              && !((getStr v "type").getD "" == "progress")
         then line else (extract_text v).getD "")
    ∧ (claude_parse_output_line line (some v)).line_type = LineType.Json := by
  refine ⟨rfl, ?_, ?_, rfl⟩
  · simp only [claude_parse_output_line, claudeAssistantSpec]
    cases hrole : getStr v "role" with
    | none => simp [hrole]
    | some r =>
      by_cases hr : r = "assistant" <;> simp [hrole, hr]
  · simp only [claude_parse_output_line]
    by_cases he : strIsEmpty (rustTrim ((extract_text v).getD "")) = true
    · by_cases hp : (getStr v "type").getD "" = "ping"
      · simp [he, hp]
      · by_cases hq : (getStr v "type").getD "" = "progress" <;> simp [he, hp, hq]
    · simp [he]

/-! ## C8 — OpenCode does overwrite a valid-JSON user config value -/

/-- C8 counterexample: when OPENCODE_CONFIG_CONTENT already carries the
user's value, the JSON text of the empty object, apply_full_access stores
the merged full-access document into the child's environment instead of
leaving the user's value; the stored string differs from the user's. -/
theorem c8_counterexample :
    (EnvOracle.mk (some "\x7b\x7d") none (some (.obj [])) none).envValue = some "\x7b\x7d"
    ∧ apply_full_access (EnvOracle.mk (some "\x7b\x7d") none (some (.obj [])) none)
        = some (merge_permissions (.obj [])).toStr
    ∧ (merge_permissions (JsonVal.obj [])).toStr ≠ "\x7b\x7d" := by
  refine ⟨rfl, rfl, by decide⟩

/-- C8 amended: the user's OPENCODE_CONFIG_CONTENT value survives into the
child unchanged only when it does not parse as JSON (the adapter then
leaves the variable untouched); when it parses, the adapter overwrites the
variable with the same JSON merged with the full-access permission
sections. -/
theorem c8_env_value_handling (o1 o2 : EnvOracle) (cfgj : JsonVal)
    (h1 : o1.parsedContent = none)
    (h2 : (o1.envValue.isSome || o1.shellValue.isSome) = true)
    (h3 : o2.parsedContent = some cfgj) :
    apply_full_access o1 = none
    ∧ apply_full_access o2 = some (merge_permissions cfgj).toStr := by
  constructor
  · simp [apply_full_access, h1, h2]
  · simp [apply_full_access, h3]

/-- Witness for c8_env_value_handling at concrete oracles. -/
theorem c8_env_value_handling_witness :
    apply_full_access ⟨some "not json", none, none, none⟩ = none
    ∧ apply_full_access ⟨some "\x7b\x7d", none, some (.obj []), none⟩
        = some (merge_permissions (.obj [])).toStr :=
  c8_env_value_handling ⟨some "not json", none, none, none⟩
    ⟨some "\x7b\x7d", none, some (.obj []), none⟩ (.obj []) rfl rfl rfl

/-! ## C6 — commit message normalisation -/

/-- C6 counterexample: a reply whose only line is two double quotes has a
first non-empty line, and the claim's strip-and-truncate of that line is
empty; the code instead falls back to the literal "ralph: iteration 1", so
the normalised message is not the stripped first non-empty line. -/
theorem c6_counterexample :
    (((rustLines "\x22\x22").map rustTrim).find? (fun l => !(strIsEmpty l)))
        = some "\x22\x22"
    ∧ trimMatches '\'' (trimMatches '"' (trimMatches '`' "\x22\x22")) = ""
    ∧ normalize_commit_message "\x22\x22" 1 = "ralph: iteration 1"
    ∧ ("ralph: iteration 1" : String) ≠ "" := by
  refine ⟨by decide, by decide, by decide, by decide⟩

theorem digitChar_ne_nl (m : Nat) (h : m < 10) : digitChar m ≠ '\n' := by
  interval_cases m <;> decide

theorem natToStrAux_no_nl (fuel n : Nat) : '\n' ∉ natToStrAux fuel n := by
  induction fuel generalizing n with
  | zero => simp [natToStrAux]
  | succ k ih =>
    rw [natToStrAux]
    by_cases h : n < 10
    · simp only [h, if_true, List.mem_singleton]
      exact fun hc => digitChar_ne_nl n h hc.symm
    · simp only [h, if_false, List.mem_append, List.mem_singleton]
      rintro (hc | hc)
      · exact ih _ hc
      · exact digitChar_ne_nl (n % 10) (Nat.mod_lt _ (by omega)) hc.symm

theorem natToStrAux_length (fuel n k : Nat) (h : n < 10 ^ k) (hk : 1 ≤ k) :
    (natToStrAux fuel n).length ≤ k := by
  induction fuel generalizing n k with
  | zero => simp [natToStrAux]
  | succ f ih =>
    rw [natToStrAux]
    by_cases h10 : n < 10
    · simp only [h10, if_true, List.length_singleton]
      exact hk
    · have hk2 : 2 ≤ k := by
        rcases Nat.lt_or_ge k 2 with hlt | hge
        · exfalso
          have : k = 1 := by omega
          rw [this] at h
          simp at h
          omega
        · exact hge
      have hdiv : n / 10 < 10 ^ (k - 1) := by
        have hpow : 10 ^ (k - 1) * 10 = 10 ^ k := by
          have : k - 1 + 1 = k := by omega
          calc 10 ^ (k - 1) * 10 = 10 ^ (k - 1 + 1) := by rw [pow_succ]
            _ = 10 ^ k := by rw [this]
        rw [Nat.div_lt_iff_lt_mul (by omega)]
        omega
      have := ih (n / 10) (k - 1) hdiv (by omega)
      simp only [h10, if_false, List.length_append, List.length_singleton]
      omega

theorem splitNl_no_nl (cs : List Char) : ∀ l ∈ splitNl cs, '\n' ∉ l := by
  induction cs with
  | nil =>
    intro l hl
    simp [splitNl] at hl
    simp [hl]
  | cons c rest ih =>
    intro l hl
    rw [splitNl] at hl
    by_cases hc : c = '\n'
    · simp only [hc, if_true, List.mem_cons] at hl
      rcases hl with hl | hl
      · simp [hl]
      · exact ih l hl
    · simp only [hc, if_false] at hl
      rcases hr : splitNl rest with _ | ⟨l0, ls⟩
      · rw [hr] at hl
        simp at hl
        subst hl
        simp only [List.mem_singleton]
        exact fun he => hc he.symm
      · rw [hr] at hl
        simp only [List.mem_cons] at hl
        rcases hl with hl | hl
        · subst hl
          intro hmem
          rcases List.mem_cons.mp hmem with he | he
          · exact hc he.symm
          · exact ih l0 (by rw [hr]; exact List.mem_cons_self _ _) he
        · exact ih l (by rw [hr]; exact List.mem_cons_of_mem _ hl)

theorem rustLines_no_nl (s : String) : ∀ l ∈ rustLines s, '\n' ∉ l.data := by
  intro l hl
  simp only [rustLines] at hl
  rw [List.mem_map] at hl
  obtain ⟨seg, hseg, hmk⟩ := hl
  have hseg2 : seg ∈ splitNl s.data := by
    by_cases hlast : (splitNl s.data).getLast? = some []
    · simp only [hlast, if_true] at hseg
      exact (List.dropLast_sublist (l := splitNl s.data)).mem hseg
    · simp only [hlast, if_false] at hseg
      exact hseg
  have hnl := splitNl_no_nl s.data seg hseg2
  subst hmk
  show '\n' ∉ stripCr seg
  intro hmem
  apply hnl
  unfold stripCr at hmem
  split at hmem
  · exact (List.dropLast_sublist (l := seg)).mem hmem
  · exact hmem

theorem mem_rustTrim (s : String) (c : Char) (h : c ∈ (rustTrim s).data) : c ∈ s.data := by
  simp only [rustTrim] at h
  have h1 := (List.dropWhile_sublist rustIsWs
      (l := (s.data.dropWhile rustIsWs).reverse)).mem (List.mem_reverse.mp h)
  exact (List.dropWhile_sublist rustIsWs (l := s.data)).mem (List.mem_reverse.mp h1)

theorem mem_trimMatches (ch : Char) (s : String) (c : Char)
    (h : c ∈ (trimMatches ch s).data) : c ∈ s.data := by
  simp only [trimMatches] at h
  have h1 := (List.dropWhile_sublist (· = ch)
      (l := (s.data.dropWhile (· = ch)).reverse)).mem (List.mem_reverse.mp h)
  exact (List.dropWhile_sublist (· = ch) (l := s.data)).mem (List.mem_reverse.mp h1)

theorem truncPipeline_props (stripped fallback : String)
    (h1 : '\n' ∉ stripped.data) (h2 : '\n' ∉ fallback.data)
    (h3 : fallback ≠ "") (h4 : fallback.data.length ≤ 72) :
    (let line := if strIsEmpty stripped then fallback else stripped
     let res := if line.data.length > 72 then String.mk (line.data.take 72) else line
     '\n' ∉ res.data ∧ res ≠ "" ∧ res.data.length ≤ 72) := by
  dsimp only
  by_cases hemp : strIsEmpty stripped = true
  · have hnl : ¬(fallback.data.length > 72) := by omega
    simp only [hemp, if_true, hnl, if_false]
    exact ⟨h2, h3, by omega⟩
  · have hne : stripped ≠ "" := by
      intro he
      rw [he] at hemp
      exact hemp (by decide)
    simp only [hemp, Bool.false_eq_true, if_false]
    by_cases hlong : stripped.data.length > 72
    · simp only [hlong, if_true]
      refine ⟨?_, ?_, ?_⟩
      · intro hc
        exact h1 (List.take_subset _ _ hc)
      · intro he
        have hd := congrArg String.data he
        simp only [List.take_eq_nil_iff] at hd
        rcases hd with hd | hd
        · exact absurd hd (by decide)
        · rw [hd] at hlong
          simp at hlong
      · simp only [List.length_take]
        omega
    · simp only [hlong, if_false]
      exact ⟨h1, hne, by omega⟩

theorem truncPipeline_eq (stripped fallback : String) (h4 : fallback.data.length ≤ 72) :
    (let line := if strIsEmpty stripped then fallback else stripped
     if line.data.length > 72 then String.mk (line.data.take 72) else line) =
    (if strIsEmpty stripped then fallback
     else if stripped.data.length > 72 then String.mk (stripped.data.take 72) else stripped) := by
  dsimp only
  by_cases hemp : strIsEmpty stripped = true
  · have hnl : ¬(fallback.data.length > 72) := by omega
    simp only [hemp, if_true, hnl, if_false]
  · simp only [hemp, Bool.false_eq_true, if_false]

theorem c6_normalize_spec (raw : String) (n : Nat) (h : n < 2 ^ 32) :
    (normalize_commit_message raw n =
       (let first := (((rustLines raw).map rustTrim).find? (fun l => !(strIsEmpty l))).getD ""
        let stripped := trimMatches '\'' (trimMatches '"' (trimMatches '`' first))
        if strIsEmpty stripped then "ralph: iteration " ++ natToStr n
        else if stripped.data.length > 72 then String.mk (stripped.data.take 72) else stripped))
    ∧ '\n' ∉ (normalize_commit_message raw n).data
    ∧ normalize_commit_message raw n ≠ ""
    ∧ (normalize_commit_message raw n).data.length ≤ 72 := by
  have hn10 : n < 10 ^ 10 := by
    have hlt : (2:Nat) ^ 32 < 10 ^ 10 := by norm_num
    omega
  have hfb_len : ("ralph: iteration " ++ natToStr n).data.length ≤ 27 := by
    rw [String.data_append]
    rw [List.length_append]
    have h1 : ("ralph: iteration " : String).data.length = 17 := by decide
    have h2 : (natToStr n).data.length ≤ 10 := natToStrAux_length (n+1) n 10 hn10 (by omega)
    omega
  have hfb_nl : '\n' ∉ ("ralph: iteration " ++ natToStr n).data := by
    rw [String.data_append]
    rw [List.mem_append]
    rintro (hc | hc)
    · revert hc
      decide
    · exact natToStrAux_no_nl (n+1) n hc
  have hfb_ne : ("ralph: iteration " ++ natToStr n) ≠ "" := by
    intro he
    have hd := congrArg String.data he
    rw [String.data_append] at hd
    rcases List.append_eq_nil.mp hd with ⟨h17, _⟩
    exact absurd h17 (by decide)
  have hfirst_nl :
      '\n' ∉ ((((rustLines raw).map rustTrim).find? (fun l => !(strIsEmpty l))).getD "").data := by
    rcases hf : ((rustLines raw).map rustTrim).find? (fun l => !(strIsEmpty l)) with _ | x
    · simp
    · simp only [Option.getD_some]
      have hx := List.mem_of_find?_eq_some hf
      rw [List.mem_map] at hx
      obtain ⟨y, hy, hxy⟩ := hx
      subst hxy
      intro hc
      exact rustLines_no_nl raw y hy (mem_rustTrim y '\n' hc)
  have hstripped_nl : '\n' ∉ (trimMatches '\'' (trimMatches '"' (trimMatches '`'
      ((((rustLines raw).map rustTrim).find? (fun l => !(strIsEmpty l))).getD "")))).data := by
    intro hc
    exact hfirst_nl (mem_trimMatches _ _ _ (mem_trimMatches _ _ _ (mem_trimMatches _ _ _ hc)))
  have hprops := truncPipeline_props
    (trimMatches '\'' (trimMatches '"' (trimMatches '`'
      ((((rustLines raw).map rustTrim).find? (fun l => !(strIsEmpty l))).getD ""))))
    ("ralph: iteration " ++ natToStr n) hstripped_nl hfb_nl hfb_ne (by omega)
  have heq := truncPipeline_eq
    (trimMatches '\'' (trimMatches '"' (trimMatches '`'
      ((((rustLines raw).map rustTrim).find? (fun l => !(strIsEmpty l))).getD ""))))
    ("ralph: iteration " ++ natToStr n) (by omega)
  exact ⟨heq, hprops.1, hprops.2.1, hprops.2.2⟩


/-- Witness for c6_normalize_spec at a concrete reply and iteration. -/
theorem c6_normalize_spec_witness :
    (normalize_commit_message "  `Add feature`  \nbody" 2 =
       (let first := (((rustLines "  `Add feature`  \nbody").map rustTrim).find?
            (fun l => !(strIsEmpty l))).getD ""
        let stripped := trimMatches '\'' (trimMatches '"' (trimMatches '`' first))
        if strIsEmpty stripped then "ralph: iteration " ++ natToStr 2
        else if stripped.data.length > 72 then String.mk (stripped.data.take 72) else stripped))
    ∧ '\n' ∉ (normalize_commit_message "  `Add feature`  \nbody" 2).data
    ∧ normalize_commit_message "  `Add feature`  \nbody" 2 ≠ ""
    ∧ (normalize_commit_message "  `Add feature`  \nbody" 2).data.length ≤ 72 :=
  c6_normalize_spec "  `Add feature`  \nbody" 2 (by decide)

/-! ## C5 — the auto-commit step's git effects -/

/-- C5: with auto_commit false, a non-repository, or an empty porcelain
status, the auto-commit step performs no git mutation and returns Ok;
with auto_commit true, a repository, a dirty tree and git succeeding, it
performs exactly one add -A followed by one commit -m with the normalised
message, and returns Ok. -/
theorem c5_commit_step_spec (anyG gNR gCl gDt : GitOracle) (i : Nat)
    (outC errC outD errD outA errA outM errM : String)
    (h1 : is_git_repo gNR.revParse = .ok false)
    (h2 : is_git_repo gCl.revParse = .ok true)
    (h3 : gCl.status = .exited true outC errC)
    (h4 : strIsEmpty (rustTrim outC) = true)
    (h5 : is_git_repo gDt.revParse = .ok true)
    (h6 : gDt.status = .exited true outD errD)
    (h7 : strIsEmpty (rustTrim outD) = false)
    (h8 : gDt.add = .exited true outA errA)
    (h9 : gDt.commit = .exited true outM errM) :
    commit_iteration_if_needed false anyG i = (.ok (), [])
    ∧ (commit_iteration_if_needed true gNR i).1 = .ok ()
    ∧ gitMutations (commit_iteration_if_needed true gNR i).2 = []
    ∧ (commit_iteration_if_needed true gCl i).1 = .ok ()
    ∧ gitMutations (commit_iteration_if_needed true gCl i).2 = []
    ∧ (commit_iteration_if_needed true gDt i).1 = .ok ()
    ∧ gitMutations (commit_iteration_if_needed true gDt i).2 =
        [["add", "-A"], ["commit", "-m", commitMessageFor gDt i]] := by
  refine ⟨rfl, ?_, ?_, ?_, ?_, ?_, ?_⟩
  · simp [commit_iteration_if_needed, h1]
  · simp [commit_iteration_if_needed, h1, gitMutations]
  · simp [commit_iteration_if_needed, h2, h3, h4, run_git]
  · simp [commit_iteration_if_needed, h2, h3, h4, run_git, gitMutations]
  · simp [commit_iteration_if_needed, h5, h6, h7, h8, h9, run_git]
  · simp [commit_iteration_if_needed, h5, h6, h7, h8, h9, run_git, gitMutations]

/-- Witness for c5_commit_step_spec at the concrete oracles. -/
theorem c5_commit_step_spec_witness :
    commit_iteration_if_needed false gitAllOk 2 = (.ok (), [])
    ∧ (commit_iteration_if_needed true gitNoRepo 2).1 = .ok ()
    ∧ gitMutations (commit_iteration_if_needed true gitNoRepo 2).2 = []
    ∧ (commit_iteration_if_needed true gitClean 2).1 = .ok ()
    ∧ gitMutations (commit_iteration_if_needed true gitClean 2).2 = []
    ∧ (commit_iteration_if_needed true gitDirty 2).1 = .ok ()
    ∧ gitMutations (commit_iteration_if_needed true gitDirty 2).2 =
        [["add", "-A"], ["commit", "-m", commitMessageFor gitDirty 2]] :=
  c5_commit_step_spec gitAllOk gitNoRepo gitClean gitDirty 2
    "" "" " M src/main.rs\n" "" "" "" "" ""
    (by decide) (by decide) (by decide) (by decide) (by decide) (by decide)
    (by decide) (by decide) (by decide)

/-- Applying the pending external writes never clears a set stop flag. -/
theorem drainExt_stop_mono (fl : Flags) (evs : List ScriptEv)
    (h : fl.stop_requested = true) : (drainExt fl evs).1.stop_requested = true := by
  induction evs generalizing fl with
  | nil => simpa [drainExt]
  | cons e rest ih =>
    cases e <;> simp [drainExt, h] <;> exact ih _ (by simp [h])

/-! ## C2 — Codex trusted-directory refusal is fatal -/

/-- C2: when the agent kind is Codex and a stderr line carries both
fingerprint substrings, the engine emits Error with reason exactly
codex_git_repo_check_required, kills the child, and returns
Failed at the current iteration immediately — the run produces no further
events and never reaches the auto-commit step (no commitCalled action);
for any non-Codex kind the same line is not classified fatal, and the
streaming loop emits it as an ordinary Output and continues. -/
theorem c2_codex_repo_check_fatal (cfg : EngCfg) (f iteration : Nat) (fl : Flags)
    (evs : List ScriptEv) (line : String) (cli2 : CliType)
    (cfgS : EngCfg) (fS itS : Nat) (flS : Flags) (sdS : Bool) (evsS : List ScriptEv)
    (lineS : String)
    (hcli : cfg.cli_type = CliType.Codex)
    (h1 : strContains line "Not inside a trusted directory" = true)
    (h2 : strContains line "skip-git-repo-check" = true)
    (hstop : fl.stop_requested = false)
    (hpause : fl.pause_requested = false)
    (hit : iteration < cfg.max_iterations)
    (hcli2 : cli2 ≠ CliType.Codex)
    (hnfS : is_codex_git_repo_check_error cfgS.cli_type lineS = false)
    (hstopS : flS.stop_requested = false) :
    loopRun cfg (f+3) iteration fl (.spawnOk :: .errLine line :: evs) =
      ⟨[.IterationStart cfg.project_id (iteration+1),
        .Error cfg.project_id (iteration+1) CODEX_GIT_REPO_CHECK_REQUIRED],
       [.spawned (iteration+1), .killed (iteration+1)],
       some (.Failed (iteration+1))⟩
    ∧ is_codex_git_repo_check_error cli2 line = false
    ∧ streamLoop cfgS itS (fS+1) flS sdS false (.errLine lineS :: evsS) =
        (let r := streamLoop cfgS itS fS flS sdS false evsS
         ⟨.Output cfgS.project_id itS lineS (cfgS.cli_type != CliType.Codex) :: r.events,
          r.acts, r.flags, r.rest, r.outcome⟩) := by
  refine ⟨?_, ?_, ?_⟩
  · simp only [loopRun]
    conv_lhs => rw [runPhase]
    simp only [hit, if_true, drainExt, hstop, hpause, Bool.false_eq_true, if_false]
    conv_lhs => rw [runPhase]
    simp only [drainExt]
    conv_lhs => rw [streamLoop.eq_def]
    simp only [hstop, Bool.false_eq_true, if_false, Bool.and_self, Bool.false_and]
    simp [is_codex_git_repo_check_error, hcli, h1, h2]
  · cases cli2 with
    | Codex => exact absurd rfl hcli2
    | Claude => simp [is_codex_git_repo_check_error]
    | OpenCode => simp [is_codex_git_repo_check_error]
  · conv_lhs => rw [streamLoop.eq_def]
    simp [hstopS, hnfS]

/-- Witness for c2_codex_repo_check_fatal at the spec's scenario-6 stderr
line. -/
theorem c2_codex_repo_check_fatal_witness :
    loopRun cfgCodexEx 3 0 ⟨false, false, false⟩
        [.spawnOk,
         .errLine "Error: Not inside a trusted directory. Use --skip-git-repo-check to bypass."] =
      ⟨[.IterationStart "p" 1, .Error "p" 1 CODEX_GIT_REPO_CHECK_REQUIRED],
       [.spawned 1, .killed 1], some (.Failed 1)⟩
    ∧ is_codex_git_repo_check_error CliType.Claude
        "Error: Not inside a trusted directory. Use --skip-git-repo-check to bypass." = false
    ∧ streamLoop cfgCodexEx 1 1 ⟨false, false, false⟩ false false [.errLine "working..."] =
        (let r := streamLoop cfgCodexEx 1 0 ⟨false, false, false⟩ false false []
         ⟨.Output "p" 1 "working..." (cfgCodexEx.cli_type != CliType.Codex) :: r.events,
          r.acts, r.flags, r.rest, r.outcome⟩) :=
  c2_codex_repo_check_fatal cfgCodexEx 0 0 ⟨false, false, false⟩ []
    "Error: Not inside a trusted directory. Use --skip-git-repo-check to bypass."
    CliType.Claude cfgCodexEx 0 1 ⟨false, false, false⟩ false [] "working..."
    rfl (by decide) (by decide) rfl rfl (by decide) (by decide) (by decide) rfl

/-! ## C10 — an empty sentinel completes at the first assistant stdout line -/

/-- C10: the engine never validates the sentinel: with completion_signal
empty, every parsed line satisfies the contains check, so the first
assistant-originated stdout line completes the iteration — the run returns
Completed at the current iteration and emits the Completed event. -/
theorem c10_empty_sentinel_completes (cfg : EngCfg) (f iteration : Nat) (fl : Flags)
    (evs : List ScriptEv) (line : String) (json : Option JsonVal)
    (hsig : cfg.completion_signal = "")
    (hass : (parse_output_line cfg.cli_type line json).is_assistant = true)
    (hstop : fl.stop_requested = false)
    (hpause : fl.pause_requested = false)
    (hit : iteration < cfg.max_iterations) :
    strContains (parse_output_line cfg.cli_type line json).content cfg.completion_signal = true
    ∧ (loopRun cfg (f+3) iteration fl (.spawnOk :: .outLine line json :: evs)).final
        = some (.Completed (iteration+1))
    ∧ LoopEvent.Completed cfg.project_id (iteration+1)
        ∈ (loopRun cfg (f+3) iteration fl (.spawnOk :: .outLine line json :: evs)).events := by
  have hred : loopRun cfg (f+3) iteration fl (.spawnOk :: .outLine line json :: evs) =
      (let cres := commit_iteration_if_needed cfg.auto_commit (cfg.git (iteration+1)) (iteration+1)
       let commitEvs :=
         match cres.1 with
         | .ok _ => ([] : List LoopEvent)
         | .error err =>
           [LoopEvent.Output cfg.project_id (iteration+1) ("[auto-commit] " ++ err) true]
       ⟨.IterationStart cfg.project_id (iteration+1) ::
          ([LoopEvent.Output cfg.project_id (iteration+1)
              (parse_output_line cfg.cli_type line json).content false] ++ commitEvs ++
           [.Completed cfg.project_id (iteration+1)]),
        Act.spawned (iteration+1) ::
          [.killed (iteration+1)] ++ [.waited (iteration+1), .commitCalled (iteration+1)],
        some (.Completed (iteration+1))⟩) := by
    simp only [loopRun]
    conv_lhs => rw [runPhase]
    simp only [hit, if_true, drainExt, hstop, hpause, Bool.false_eq_true, if_false]
    conv_lhs => rw [runPhase]
    simp only [drainExt]
    conv_lhs => rw [streamLoop.eq_def]
    simp only [hstop, Bool.false_eq_true, if_false, Bool.and_self, Bool.false_and]
    simp [hass, hsig, strContains_empty]
  refine ⟨by rw [hsig]; exact strContains_empty _, ?_, ?_⟩
  · rw [hred]
  · rw [hred]
    cases hc : (commit_iteration_if_needed cfg.auto_commit (cfg.git (iteration+1)) (iteration+1)).1 <;>
      simp [hc]

/-- Witness for c10_empty_sentinel_completes: a Codex engine with an empty
sentinel completes at the first stdout line. -/
theorem c10_empty_sentinel_completes_witness :
    strContains (parse_output_line cfgCodexEmptySig.cli_type "hello" none).content
        cfgCodexEmptySig.completion_signal = true
    ∧ (loopRun cfgCodexEmptySig 3 0 ⟨false, false, false⟩ [.spawnOk, .outLine "hello" none]).final
        = some (.Completed 1)
    ∧ LoopEvent.Completed "p" 1
        ∈ (loopRun cfgCodexEmptySig 3 0 ⟨false, false, false⟩
             [.spawnOk, .outLine "hello" none]).events :=
  c10_empty_sentinel_completes cfgCodexEmptySig 0 0 ⟨false, false, false⟩ [] "hello" none
    rfl (by decide) rfl rfl (by decide)

/-! ## C3 — stop observed means kill, Stopped, Idle, no auto-commit -/

/-- C3: whenever the engine observes stop_requested true it settles Idle
without auto-commit: at the streaming loop's head the live child is killed,
Stopped is emitted and the outcome is Idle; a stop landing during streaming
makes the whole run return Idle with no commitCalled action for the
interrupted iteration; at the pre-spawn gate (no child is live) Stopped is
emitted and Idle returned; and the paused wait's poll tick honours a set
stop flag the same way. -/
theorem c3_stop_observed (cfg : EngCfg) (f iteration : Nat) (fl : Flags)
    (evs : List ScriptEv)
    (cfgS : EngCfg) (fS itS : Nat) (flS : Flags) (sdS seS : Bool) (evsS : List ScriptEv)
    (cfgG : EngCfg) (fG itG : Nat) (flG : Flags) (evsG : List ScriptEv)
    (cfgP : EngCfg) (fP : Nat) (flP : Flags) (evsP : List ScriptEv)
    (hstop : fl.stop_requested = false)
    (hpause : fl.pause_requested = false)
    (hit : iteration < cfg.max_iterations)
    (hnbS : (sdS && seS) = false)
    (hstopS : flS.stop_requested = true)
    (hstopG : flG.stop_requested = true)
    (hitG : itG < cfgG.max_iterations)
    (hstopP : flP.stop_requested = true) :
    loopRun cfg (f+4) iteration fl (.spawnOk :: .extStop :: evs) =
      ⟨[.IterationStart cfg.project_id (iteration+1), .Stopped cfg.project_id],
       [.spawned (iteration+1), .killed (iteration+1)],
       some .Idle⟩
    ∧ streamLoop cfgS itS (fS+1) flS sdS seS evsS =
        ⟨[.Stopped cfgS.project_id], [.killed itS], flS, evsS, .stoppedIdle⟩
    ∧ loopRun cfgG (fG+1) itG flG evsG = ⟨[.Stopped cfgG.project_id], [], some .Idle⟩
    ∧ pausedWait cfgP (fP+1) flP (.pauseTick :: evsP) =
        ⟨[.Stopped cfgP.project_id], flP, evsP, .stoppedIdle⟩ := by
  refine ⟨?_, ?_, ?_, ?_⟩
  · simp only [loopRun]
    conv_lhs => rw [runPhase]
    simp only [hit, if_true, drainExt, hstop, hpause, Bool.false_eq_true, if_false]
    conv_lhs => rw [runPhase]
    simp only [drainExt]
    conv_lhs => rw [streamLoop.eq_def]
    simp only [hstop, Bool.false_eq_true, if_false, Bool.and_self, Bool.false_and]
    conv_lhs => rw [streamLoop.eq_def]
    simp
  · conv_lhs => rw [streamLoop.eq_def]
    simp [hnbS, hstopS]
  · simp only [loopRun]
    conv_lhs => rw [runPhase]
    have hd := drainExt_stop_mono flG evsG hstopG
    simp [hitG, hd]
  · conv_lhs => rw [pausedWait]
    simp [hstopP]

/-- Witness for c3_stop_observed at concrete inputs. -/
theorem c3_stop_observed_witness :
    loopRun cfgCodexEx 4 0 ⟨false, false, false⟩ [.spawnOk, .extStop] =
      ⟨[.IterationStart "p" 1, .Stopped "p"], [.spawned 1, .killed 1], some .Idle⟩
    ∧ streamLoop cfgCodexEx 1 1 ⟨true, false, false⟩ false false [] =
        ⟨[.Stopped "p"], [.killed 1], ⟨true, false, false⟩, [], .stoppedIdle⟩
    ∧ loopRun cfgCodexEx 1 0 ⟨true, false, false⟩ [] =
        ⟨[.Stopped "p"], [], some .Idle⟩
    ∧ pausedWait cfgCodexEx 1 ⟨true, true, false⟩ [.pauseTick] =
        ⟨[.Stopped "p"], ⟨true, true, false⟩, [], .stoppedIdle⟩ :=
  c3_stop_observed cfgCodexEx 0 0 ⟨false, false, false⟩ []
    cfgCodexEx 0 1 ⟨true, false, false⟩ false false []
    cfgCodexEx 0 0 ⟨true, false, false⟩ []
    cfgCodexEx 0 ⟨true, true, false⟩ []
    rfl rfl (by decide) rfl rfl rfl (by decide) rfl

/-! ## C1 — the sentinel is not detected on stderr -/

/-- C1 counterexample: the spec's scenario-1 run (Codex agent, sentinel only
on stderr, bound 3).  The stderr lines are emitted as Output with is_stderr
false, yet the run never completes: it ends MaxIterationsReached at 3, not
Completed at 1. -/
theorem c1_counterexample :
    strContains "<done>COMPLETE</done>" cfgCodexEx.completion_signal = true
    ∧ (loopRun cfgCodexEx 40 0 ⟨false, false, false⟩ stderrOnlyScript).final
        = some (.MaxIterationsReached 3)
    ∧ (loopRun cfgCodexEx 40 0 ⟨false, false, false⟩ stderrOnlyScript).events =
        [.IterationStart "p" 1, .Output "p" 1 "working..." false,
         .Output "p" 1 "<done>COMPLETE</done>" false,
         .IterationStart "p" 2, .IterationStart "p" 3, .MaxIterationsReached "p" 3]
    ∧ finalNotCompleted (loopRun cfgCodexEx 40 0 ⟨false, false, false⟩ stderrOnlyScript).final
        = true := by
  refine ⟨by decide, by decide, by decide, by decide⟩

/-! ## Invariant lemmas for the interpreter -/

theorem eventsIterLe_cons (m : Nat) (e : LoopEvent) (l : List LoopEvent) :
    eventsIterLe m (e :: l) = (evIterLe m e && eventsIterLe m l) := rfl

theorem eventsIterLe_append (m : Nat) (a b : List LoopEvent) :
    eventsIterLe m (a ++ b) = (eventsIterLe m a && eventsIterLe m b) :=
  List.all_append

theorem pausedWait_stop_mono (cfg : EngCfg) (fuel : Nat) (fl : Flags) (evs : List ScriptEv)
    (h : fl.stop_requested = true) :
    (pausedWait cfg fuel fl evs).flags.stop_requested = true := by
  induction fuel generalizing fl evs with
  | zero => simpa [pausedWait]
  | succ n ih =>
    cases evs with
    | nil => simpa [pausedWait]
    | cons e rest =>
      cases e with
      | extStop => simp only [pausedWait]; exact ih _ _ (by simp)
      | extPause => simp only [pausedWait]; exact ih _ _ (by simpa)
      | extResume => simp only [pausedWait]; exact ih _ _ (by simpa)
      | resumeWake =>
        simp only [pausedWait]
        split
        · simpa
        · exact ih _ _ h
      | pauseTick => simp [pausedWait, h]
      | spawnOk => simp only [pausedWait]; exact ih _ _ h
      | spawnFail e => simp only [pausedWait]; exact ih _ _ h
      | outLine l j => simp only [pausedWait]; exact ih _ _ h
      | outEof => simp only [pausedWait]; exact ih _ _ h
      | errLine l => simp only [pausedWait]; exact ih _ _ h
      | errEof => simp only [pausedWait]; exact ih _ _ h
      | tick a b => simp only [pausedWait]; exact ih _ _ h

theorem streamLoop_stop_mono (cfg : EngCfg) (it fuel : Nat) (fl : Flags) (sd se : Bool)
    (evs : List ScriptEv) (h : fl.stop_requested = true) :
    (streamLoop cfg it fuel fl sd se evs).flags.stop_requested = true := by
  cases fuel with
  | zero => simpa [streamLoop]
  | succ n =>
    rw [streamLoop.eq_def]
    by_cases hb : (sd && se) = true <;> simp [hb, h]

theorem pausedWait_eventsIterLe (cfg : EngCfg) (m fuel : Nat) (fl : Flags) (evs : List ScriptEv) :
    eventsIterLe m (pausedWait cfg fuel fl evs).events = true := by
  induction fuel generalizing fl evs with
  | zero => simp [pausedWait]; rfl
  | succ n ih =>
    cases evs with
    | nil => simp [pausedWait]; rfl
    | cons e rest =>
      cases e with
      | extStop => simp only [pausedWait]; exact ih _ _
      | extPause => simp only [pausedWait]; exact ih _ _
      | extResume => simp only [pausedWait]; exact ih _ _
      | resumeWake =>
        simp only [pausedWait]
        split
        · rfl
        · exact ih _ _
      | pauseTick =>
        simp only [pausedWait]
        split
        · rfl
        · exact ih _ _
      | spawnOk => simp only [pausedWait]; exact ih _ _
      | spawnFail e => simp only [pausedWait]; exact ih _ _
      | outLine l j => simp only [pausedWait]; exact ih _ _
      | outEof => simp only [pausedWait]; exact ih _ _
      | errLine l => simp only [pausedWait]; exact ih _ _
      | errEof => simp only [pausedWait]; exact ih _ _
      | tick a b => simp only [pausedWait]; exact ih _ _

theorem streamLoop_eventsIterLe (cfg : EngCfg) (m it fuel : Nat) (fl : Flags) (sd se : Bool)
    (evs : List ScriptEv) (h : it ≤ m) :
    eventsIterLe m (streamLoop cfg it fuel fl sd se evs).events = true := by
  induction fuel generalizing fl sd se evs with
  | zero => simp [streamLoop]; rfl
  | succ n ih =>
    by_cases hb : (sd && se) = true
    · rw [streamLoop.eq_def]; simp [hb]; rfl
    · by_cases hs : fl.stop_requested = true
      · rw [streamLoop.eq_def]; simp [hb, hs, eventsIterLe, evIterLe]
      · cases evs with
        | nil => rw [streamLoop.eq_def]; simp [hb, hs]; rfl
        | cons e rest =>
          cases e with
          | extStop =>
            rw [streamLoop.eq_def]
            simp only [hb, hs, Bool.false_eq_true, if_false]
            exact ih _ _ _ _
          | extPause =>
            rw [streamLoop.eq_def]
            simp only [hb, hs, Bool.false_eq_true, if_false]
            exact ih _ _ _ _
          | extResume =>
            rw [streamLoop.eq_def]
            simp only [hb, hs, Bool.false_eq_true, if_false]
            exact ih _ _ _ _
          | outLine l j =>
            rw [streamLoop.eq_def]
            simp only [hb, hs, Bool.false_eq_true, if_false]
            by_cases hsd : sd = true
            · simp only [hsd, if_true]
              exact ih _ _ _ _
            · simp only [hsd, Bool.false_eq_true, if_false]
              by_cases hhit : ((parse_output_line cfg.cli_type l j).is_assistant
                  && strContains (parse_output_line cfg.cli_type l j).content
                       cfg.completion_signal) = true
              · simp [hhit, eventsIterLe, evIterLe, h]
              · simp only [hhit, Bool.false_eq_true, if_false, eventsIterLe_cons,
                  Bool.and_eq_true, evIterLe]
                exact ⟨by simpa using h, ih _ _ _ _⟩
          | outEof =>
            rw [streamLoop.eq_def]
            simp only [hb, hs, Bool.false_eq_true, if_false]
            exact ih _ _ _ _
          | errLine l =>
            rw [streamLoop.eq_def]
            simp only [hb, hs, Bool.false_eq_true, if_false]
            by_cases hse : se = true
            · simp only [hse, if_true]
              exact ih _ _ _ _
            · simp only [hse, Bool.false_eq_true, if_false]
              by_cases hfp : is_codex_git_repo_check_error cfg.cli_type l = true
              · simp [hfp, eventsIterLe, evIterLe, h]
              · simp only [hfp, Bool.false_eq_true, if_false, eventsIterLe_cons,
                  Bool.and_eq_true, evIterLe]
                exact ⟨by simpa using h, ih _ _ _ _⟩
          | errEof =>
            rw [streamLoop.eq_def]
            simp only [hb, hs, Bool.false_eq_true, if_false]
            exact ih _ _ _ _
          | tick a b =>
            rw [streamLoop.eq_def]
            simp only [hb, hs, Bool.false_eq_true, if_false]
            by_cases ha : a = true
            · simp [ha, eventsIterLe, evIterLe, h]
            · by_cases hbb : b = true
              · simp [ha, hbb, eventsIterLe, evIterLe, h]
              · simp only [ha, hbb, Bool.false_eq_true, if_false]
                exact ih _ _ _ _
          | spawnOk =>
            rw [streamLoop.eq_def]
            simp only [hb, hs, Bool.false_eq_true, if_false]
            exact ih _ _ _ _
          | spawnFail e =>
            rw [streamLoop.eq_def]
            simp only [hb, hs, Bool.false_eq_true, if_false]
            exact ih _ _ _ _
          | pauseTick =>
            rw [streamLoop.eq_def]
            simp only [hb, hs, Bool.false_eq_true, if_false]
            exact ih _ _ _ _
          | resumeWake =>
            rw [streamLoop.eq_def]
            simp only [hb, hs, Bool.false_eq_true, if_false]
            exact ih _ _ _ _

theorem runPhase_eventsIterLe (cfg : EngCfg) (fuel : Nat) (ph : Phase) (it : Nat)
    (fl : Flags) (evs : List ScriptEv)
    (h : it ≤ cfg.max_iterations)
    (hb : ph = Phase.body → it < cfg.max_iterations) :
    eventsIterLe cfg.max_iterations (runPhase cfg fuel ph it fl evs).events = true := by
  induction fuel generalizing ph it fl evs with
  | zero => rw [runPhase]; rfl
  | succ n ih =>
    cases ph with
    | gate =>
      rw [runPhase]
      dsimp only
      by_cases hit : it < cfg.max_iterations
      · simp only [hit, if_true]
        by_cases hsr : (drainExt fl evs).1.stop_requested = true
        · simp only [hsr, if_true]
          rfl
        · simp only [hsr, Bool.false_eq_true, if_false]
          by_cases hpr : (drainExt fl evs).1.pause_requested = true
          · simp only [hpr, if_true]
            split <;>
              (simp only [eventsIterLe_cons, eventsIterLe_append, Bool.and_eq_true, evIterLe]
               and_intros <;> first
                | simpa using h
                | exact pausedWait_eventsIterLe _ _ _ _ _
                | exact ih .body it _ _ h (fun _ => hit))
          · simp only [hpr, Bool.false_eq_true, if_false]
            exact ih .body it _ _ h (fun _ => hit)
      · simp only [hit, if_false]
        simp [eventsIterLe, evIterLe, h]
    | body =>
      have hlt : it < cfg.max_iterations := hb rfl
      have hle : it + 1 ≤ cfg.max_iterations := hlt
      rw [runPhase]
      dsimp only
      split
      · -- spawnFail
        simp only [eventsIterLe_cons, Bool.and_eq_true, evIterLe]
        and_intros <;> first
          | simpa using hle
          | exact ih .gate (it+1) _ _ hle (by intro hh; cases hh)
      · -- spawnOk
        have hcommit : eventsIterLe cfg.max_iterations
            (match (commit_iteration_if_needed cfg.auto_commit (cfg.git (it+1)) (it+1)).1 with
             | .ok _ => ([] : List LoopEvent)
             | .error err =>
               [LoopEvent.Output cfg.project_id (it+1) ("[auto-commit] " ++ err) true]) = true := by
          cases hc : (commit_iteration_if_needed cfg.auto_commit (cfg.git (it+1)) (it+1)).1 with
          | ok u => rfl
          | error e => simp [eventsIterLe, evIterLe, hle]
        split
        · -- exhausted
          simp only [eventsIterLe_cons, Bool.and_eq_true, evIterLe]
          and_intros <;> first
            | simpa using hle
            | exact streamLoop_eventsIterLe _ _ _ _ _ _ _ _ hle
        · -- stoppedIdle
          simp only [eventsIterLe_cons, Bool.and_eq_true, evIterLe]
          and_intros <;> first
            | simpa using hle
            | exact streamLoop_eventsIterLe _ _ _ _ _ _ _ _ hle
        · -- failedRepoCheck
          simp only [eventsIterLe_cons, Bool.and_eq_true, evIterLe]
          and_intros <;> first
            | simpa using hle
            | exact streamLoop_eventsIterLe _ _ _ _ _ _ _ _ hle
        · -- finished completed
          split
          · -- completed
            simp only [eventsIterLe_cons, eventsIterLe_append, Bool.and_eq_true, evIterLe]
            and_intros <;> first
              | simpa using hle
              | exact streamLoop_eventsIterLe _ _ _ _ _ _ _ _ hle
              | exact hcommit
              | simp [eventsIterLe, evIterLe, hle]
          · -- not completed: post-iteration gate
            split
            · -- pause requested: match on the wait outcome
              split <;>
                (simp only [eventsIterLe_cons, eventsIterLe_append, Bool.and_eq_true, evIterLe]
                 and_intros <;> first
                  | simpa using hle
                  | exact streamLoop_eventsIterLe _ _ _ _ _ _ _ _ hle
                  | exact hcommit
                  | exact pausedWait_eventsIterLe _ _ _ _ _
                  | exact ih .gate (it+1) _ _ hle (by intro hh; cases hh))
            · simp only [eventsIterLe_cons, eventsIterLe_append, Bool.and_eq_true, evIterLe]
              and_intros <;> first
                | simpa using hle
                | exact streamLoop_eventsIterLe _ _ _ _ _ _ _ _ hle
                | exact hcommit
                | exact ih .gate (it+1) _ _ hle (by intro hh; cases hh)
      · -- malformed script head
        simp [eventsIterLe, evIterLe, hle]


/-! ## C4 — every emitted event stays within the iteration bound -/

/-- C4: for every run (from start's entry, and from any reachable point of
the while loop with the counter within the bound), every emitted event
carries an iteration number at most max_iterations; the counter is
incremented only behind the iteration < max_iterations guard, which is what
the invariant's induction step uses. -/
theorem c4_events_iteration_bounded (cfg : EngCfg) (fuel : Nat) (initial : Flags)
    (script : List ScriptEv) (fuel2 it : Nat) (fl : Flags) (evs : List ScriptEv)
    (h : it ≤ cfg.max_iterations) :
    eventsIterLe cfg.max_iterations (engineStart cfg initial script fuel).events = true
    ∧ eventsIterLe cfg.max_iterations (loopRun cfg fuel2 it fl evs).events = true := by
  constructor
  · exact runPhase_eventsIterLe cfg fuel .gate 0 _ script (Nat.zero_le _) (by intro hh; cases hh)
  · exact runPhase_eventsIterLe cfg fuel2 .gate it fl evs h (by intro hh; cases hh)

/-- Witness for c4_events_iteration_bounded on the scenario-1 run. -/
theorem c4_events_iteration_bounded_witness :
    eventsIterLe cfgCodexEx.max_iterations
        (engineStart cfgCodexEx ⟨false, false, false⟩ stderrOnlyScript 40).events = true
    ∧ eventsIterLe cfgCodexEx.max_iterations
        (loopRun cfgCodexEx 40 2 ⟨false, false, false⟩ stderrOnlyScript).events = true :=
  c4_events_iteration_bounded cfgCodexEx 40 ⟨false, false, false⟩ stderrOnlyScript 40 2
    ⟨false, false, false⟩ stderrOnlyScript (by decide)

/-! ## C9 amended — reset at entry, permanence afterwards -/

/-- C9 amended: start() stores false into stop_requested at entry, so a stop
issued before the run begins is discarded; once the run is underway a set
stop flag is permanent — applying pending control writes, the paused wait
and the streaming loop all leave it set (nothing in the engine ever stores
false into it after the entry reset). -/
theorem c9_stop_reset_then_permanent (flR fl : Flags) (cfg : EngCfg)
    (fuel fuelS it : Nat) (sd se : Bool) (evs evsP evsS : List ScriptEv)
    (h : fl.stop_requested = true) :
    (startFlagsReset flR).stop_requested = false
    ∧ (drainExt fl evs).1.stop_requested = true
    ∧ (pausedWait cfg fuel fl evsP).flags.stop_requested = true
    ∧ (streamLoop cfg it fuelS fl sd se evsS).flags.stop_requested = true :=
  ⟨rfl, drainExt_stop_mono fl evs h, pausedWait_stop_mono cfg fuel fl evsP h,
   streamLoop_stop_mono cfg it fuelS fl sd se evsS h⟩

/-- Witness for c9_stop_reset_then_permanent at concrete values. -/
theorem c9_stop_reset_then_permanent_witness :
    (startFlagsReset ⟨true, true, false⟩).stop_requested = false
    ∧ (drainExt ⟨true, false, false⟩ [.extPause]).1.stop_requested = true
    ∧ (pausedWait cfgCodexEx 3 ⟨true, false, false⟩ [.resumeWake]).flags.stop_requested = true
    ∧ (streamLoop cfgCodexEx 1 3 ⟨true, false, false⟩ false false
         [.errLine "x"]).flags.stop_requested = true :=
  c9_stop_reset_then_permanent ⟨true, true, false⟩ ⟨true, false, false⟩ cfgCodexEx
    3 3 1 false false [.extPause] [.resumeWake] [.errLine "x"] rfl

/-! ## C1 amended — no completion without a qualifying stdout line -/

theorem noSentinelOut_tail (cfg : EngCfg) (e : ScriptEv) (rest : List ScriptEv)
    (h : noSentinelOut cfg (e :: rest) = true) : noSentinelOut cfg rest = true := by
  simp only [noSentinelOut, List.all_cons, Bool.and_eq_true] at h
  exact h.2

theorem noSentinelOut_head (cfg : EngCfg) (e : ScriptEv) (rest : List ScriptEv)
    (h : noSentinelOut cfg (e :: rest) = true) : sentinelHit cfg e = false := by
  simp only [noSentinelOut, List.all_cons, Bool.and_eq_true] at h
  simpa using h.1

theorem drainExt_noSentinel (cfg : EngCfg) (fl : Flags) (evs : List ScriptEv)
    (h : noSentinelOut cfg evs = true) :
    noSentinelOut cfg (drainExt fl evs).2 = true := by
  induction evs generalizing fl with
  | nil => simpa [drainExt]
  | cons e rest ih =>
    cases e <;> simp only [drainExt] <;>
      first
        | exact h
        | exact ih _ (noSentinelOut_tail _ _ _ h)

theorem pausedWait_rest_noSentinel (cfg : EngCfg) (fuel : Nat) (fl : Flags)
    (evs : List ScriptEv) (h : noSentinelOut cfg evs = true) :
    noSentinelOut cfg (pausedWait cfg fuel fl evs).rest = true := by
  induction fuel generalizing fl evs with
  | zero => simpa [pausedWait]
  | succ n ih =>
    cases evs with
    | nil => simp [pausedWait]; rfl
    | cons e rest =>
      have ht := noSentinelOut_tail _ _ _ h
      cases e with
      | extStop => simp only [pausedWait]; exact ih _ _ ht
      | extPause => simp only [pausedWait]; exact ih _ _ ht
      | extResume => simp only [pausedWait]; exact ih _ _ ht
      | resumeWake =>
        simp only [pausedWait]
        split
        · exact ht
        · exact ih _ _ ht
      | pauseTick =>
        simp only [pausedWait]
        split
        · exact ht
        · exact ih _ _ ht
      | spawnOk => simp only [pausedWait]; exact ih _ _ ht
      | spawnFail e => simp only [pausedWait]; exact ih _ _ ht
      | outLine l j => simp only [pausedWait]; exact ih _ _ ht
      | outEof => simp only [pausedWait]; exact ih _ _ ht
      | errLine l => simp only [pausedWait]; exact ih _ _ ht
      | errEof => simp only [pausedWait]; exact ih _ _ ht
      | tick a b => simp only [pausedWait]; exact ih _ _ ht

theorem streamLoop_noSentinel (cfg : EngCfg) (it fuel : Nat) (fl : Flags) (sd se : Bool)
    (evs : List ScriptEv) (h : noSentinelOut cfg evs = true) :
    (streamLoop cfg it fuel fl sd se evs).outcome ≠ StreamOutcome.finished true
    ∧ noSentinelOut cfg (streamLoop cfg it fuel fl sd se evs).rest = true := by
  induction fuel generalizing fl sd se evs with
  | zero => exact ⟨by simp [streamLoop], by simpa [streamLoop]⟩
  | succ n ih =>
    by_cases hb : (sd && se) = true
    · rw [streamLoop.eq_def]
      refine ⟨by simp [hb], by simpa [hb]⟩
    · by_cases hs : fl.stop_requested = true
      · rw [streamLoop.eq_def]
        refine ⟨by simp [hb, hs], by simpa [hb, hs]⟩
      · cases evs with
        | nil =>
          rw [streamLoop.eq_def]
          refine ⟨by simp [hb, hs], by simp [hb, hs]; rfl⟩
        | cons e rest =>
          have ht := noSentinelOut_tail _ _ _ h
          cases e with
          | extStop =>
            rw [streamLoop.eq_def]
            simp only [hb, hs, Bool.false_eq_true, if_false]
            exact ih _ _ _ _ ht
          | extPause =>
            rw [streamLoop.eq_def]
            simp only [hb, hs, Bool.false_eq_true, if_false]
            exact ih _ _ _ _ ht
          | extResume =>
            rw [streamLoop.eq_def]
            simp only [hb, hs, Bool.false_eq_true, if_false]
            exact ih _ _ _ _ ht
          | outLine l j =>
            rw [streamLoop.eq_def]
            simp only [hb, hs, Bool.false_eq_true, if_false]
            by_cases hsd : sd = true
            · simp only [hsd, if_true]
              exact ih _ _ _ _ ht
            · simp only [hsd, Bool.false_eq_true, if_false]
              have hhit : ((parse_output_line cfg.cli_type l j).is_assistant
                  && strContains (parse_output_line cfg.cli_type l j).content
                       cfg.completion_signal) = false := by
                have := noSentinelOut_head _ _ _ h
                simpa [sentinelHit] using this
              simp only [hhit, Bool.false_eq_true, if_false]
              exact ih _ _ _ _ ht
          | outEof =>
            rw [streamLoop.eq_def]
            simp only [hb, hs, Bool.false_eq_true, if_false]
            exact ih _ _ _ _ ht
          | errLine l =>
            rw [streamLoop.eq_def]
            simp only [hb, hs, Bool.false_eq_true, if_false]
            by_cases hse : se = true
            · simp only [hse, if_true]
              exact ih _ _ _ _ ht
            · simp only [hse, Bool.false_eq_true, if_false]
              by_cases hfp : is_codex_git_repo_check_error cfg.cli_type l = true
              · refine ⟨by simp [hfp], by simp [hfp]; exact ht⟩
              · simp only [hfp, Bool.false_eq_true, if_false]
                have hr := ih fl sd false rest ht
                exact ⟨hr.1, hr.2⟩
          | errEof =>
            rw [streamLoop.eq_def]
            simp only [hb, hs, Bool.false_eq_true, if_false]
            exact ih _ _ _ _ ht
          | tick a b =>
            rw [streamLoop.eq_def]
            simp only [hb, hs, Bool.false_eq_true, if_false]
            by_cases ha : a = true
            · refine ⟨by simp [ha], by simp [ha]; exact ht⟩
            · by_cases hbb : b = true
              · refine ⟨by simp [ha, hbb], by simp [ha, hbb]; exact ht⟩
              · simp only [ha, hbb, Bool.false_eq_true, if_false]
                exact ih _ _ _ _ ht
          | spawnOk =>
            rw [streamLoop.eq_def]
            simp only [hb, hs, Bool.false_eq_true, if_false]
            exact ih _ _ _ _ ht
          | spawnFail e =>
            rw [streamLoop.eq_def]
            simp only [hb, hs, Bool.false_eq_true, if_false]
            exact ih _ _ _ _ ht
          | pauseTick =>
            rw [streamLoop.eq_def]
            simp only [hb, hs, Bool.false_eq_true, if_false]
            exact ih _ _ _ _ ht
          | resumeWake =>
            rw [streamLoop.eq_def]
            simp only [hb, hs, Bool.false_eq_true, if_false]
            exact ih _ _ _ _ ht

theorem runPhase_noCompleted (cfg : EngCfg) (fuel : Nat) (ph : Phase) (it : Nat)
    (fl : Flags) (evs : List ScriptEv) (h : noSentinelOut cfg evs = true) :
    finalNotCompleted (runPhase cfg fuel ph it fl evs).final = true := by
  induction fuel generalizing ph it fl evs with
  | zero => rw [runPhase]; rfl
  | succ n ih =>
    cases ph with
    | gate =>
      rw [runPhase]
      dsimp only
      by_cases hit : it < cfg.max_iterations
      · simp only [hit, if_true]
        by_cases hsr : (drainExt fl evs).1.stop_requested = true
        · simp [hsr, finalNotCompleted]
        · simp only [hsr, Bool.false_eq_true, if_false]
          have hd := drainExt_noSentinel cfg fl evs h
          by_cases hpr : (drainExt fl evs).1.pause_requested = true
          · simp only [hpr, if_true]
            split
            · rfl
            · rfl
            · exact ih .body it _ _ (pausedWait_rest_noSentinel cfg n _ _ hd)
          · simp only [hpr, Bool.false_eq_true, if_false]
            exact ih .body it _ _ hd
      · simp [hit, finalNotCompleted]
    | body =>
      rw [runPhase]
      dsimp only
      have hd := drainExt_noSentinel cfg fl evs h
      split
      · rename_i e rest heq
        have hrest : noSentinelOut cfg rest = true := by
          rw [heq] at hd
          exact noSentinelOut_tail _ _ _ hd
        exact ih .gate (it+1) _ _ hrest
      · rename_i rest heq
        have hrest : noSentinelOut cfg rest = true := by
          rw [heq] at hd
          exact noSentinelOut_tail _ _ _ hd
        have hstream := streamLoop_noSentinel cfg (it+1) n (drainExt fl evs).1 false false rest hrest
        split
        · rfl
        · rfl
        · rfl
        · rename_i completed heq2
          cases completed with
          | true => exact absurd heq2 hstream.1
          | false =>
            simp only [Bool.false_eq_true, if_false]
            have hrest2 := drainExt_noSentinel cfg
              (streamLoop cfg (it+1) n (drainExt fl evs).1 false false rest).flags
              (streamLoop cfg (it+1) n (drainExt fl evs).1 false false rest).rest hstream.2
            split
            · split
              · rfl
              · rfl
              · exact ih .gate (it+1) _ _ (pausedWait_rest_noSentinel cfg n _ _ hrest2)
            · exact ih .gate (it+1) _ _ hrest2
      · rfl


/-- C1 amended: the completion sentinel is checked only against parsed
stdout lines; a Codex stderr line (even one containing the sentinel) is
emitted as Output with is_stderr false and streaming continues, and any
run in which no stdout line satisfies the completion check never returns
Completed — the spec's stderr-only scenario ends MaxIterationsReached, not
Completed. -/
theorem c1_sentinel_checked_only_on_stdout (cfg : EngCfg) (fuel it fuelS : Nat) (fl : Flags)
    (evs : List ScriptEv) (initial : Flags) (script : List ScriptEv)
    (cfgS : EngCfg) (fS itS : Nat) (flS : Flags) (sdS : Bool) (evsS : List ScriptEv)
    (lineS : String)
    (h : noSentinelOut cfg evs = true)
    (hscript : noSentinelOut cfg script = true)
    (hcliS : cfgS.cli_type = CliType.Codex)
    (hnfS : is_codex_git_repo_check_error cfgS.cli_type lineS = false)
    (hstopS : flS.stop_requested = false) :
    finalNotCompleted (loopRun cfg fuel it fl evs).final = true
    ∧ finalNotCompleted (engineStart cfg initial script fuelS).final = true
    ∧ streamLoop cfgS itS (fS+1) flS sdS false (.errLine lineS :: evsS) =
        (let r := streamLoop cfgS itS fS flS sdS false evsS
         ⟨.Output cfgS.project_id itS lineS false :: r.events,
          r.acts, r.flags, r.rest, r.outcome⟩) := by
  refine ⟨runPhase_noCompleted cfg fuel .gate it fl evs h,
          runPhase_noCompleted cfg fuelS .gate 0 _ script hscript, ?_⟩
  rw [hcliS] at hnfS
  conv_lhs => rw [streamLoop.eq_def]
  simp [hstopS, hnfS, hcliS]

/-- Witness for c1_sentinel_checked_only_on_stdout on the scenario-1 run,
with the sentinel-bearing stderr line as the non-fatal stderr line. -/
theorem c1_sentinel_checked_only_on_stdout_witness :
    finalNotCompleted (loopRun cfgCodexEx 40 0 ⟨false, false, false⟩ stderrOnlyScript).final = true
    ∧ finalNotCompleted
        (engineStart cfgCodexEx ⟨false, false, false⟩ stderrOnlyScript 40).final = true
    ∧ streamLoop cfgCodexEx 1 1 ⟨false, false, false⟩ false false
        (.errLine "<done>COMPLETE</done>" :: []) =
        (let r := streamLoop cfgCodexEx 1 0 ⟨false, false, false⟩ false false []
         ⟨.Output "p" 1 "<done>COMPLETE</done>" false :: r.events,
          r.acts, r.flags, r.rest, r.outcome⟩) :=
  c1_sentinel_checked_only_on_stdout cfgCodexEx 40 0 40 ⟨false, false, false⟩
    stderrOnlyScript ⟨false, false, false⟩ stderrOnlyScript
    cfgCodexEx 0 1 ⟨false, false, false⟩ false [] "<done>COMPLETE</done>"
    (by decide) (by decide) rfl (by decide) rfl

/-! ## C9 — a stop issued before start is discarded by the flag reset -/

/-- C9 counterexample: stop() sets the flag, but start() stores false into
it at entry, so a run started after a stop request still completes instead
of settling Idle; no Stopped event is emitted. -/
theorem c9_counterexample :
    (stopOp ⟨false, false, false⟩).stop_requested = true
    ∧ (engineStart cfgCodexEx (stopOp ⟨false, false, false⟩) stdoutDoneScript 40).final
        = some (.Completed 1)
    ∧ LoopEvent.Stopped "p"
        ∉ (engineStart cfgCodexEx (stopOp ⟨false, false, false⟩) stdoutDoneScript 40).events := by
  refine ⟨rfl, by decide, by decide⟩

end Ralph
